import Mathlib

/-!
# A verification model of the tulip dual-store filesystem

This file embeds the core of the `tulip` repository (files
`src/tulip/filesystem.py`, `src/tulip/objects.py`, `src/tulip/repository.py`)
into Lean 4 and proves properties about the embedding.

The two storage backends (`objects_fs`, the content store, and `assets_fs`,
the metadata store) are external collaborators consumed through a
conventional-filesystem capability interface (spec §1/§6).  Each backend is
modelled as a finite map from paths to nodes (directories or files), and each
backend call takes an extra `Option Err` fault argument: `none` means the
backend performs the operation with conventional filesystem semantics, while
`some e` means the backend raises `e` (connection error, permission error,
…) without performing the operation.  This makes the compensating-action
behaviour of the orchestrator observable.

Python exceptions are modelled with `Except Err`; every stateful operation
returns the (possibly partially mutated) state next to its `Except` result,
since Python code observes the mutated stores even when an exception
propagates.  The sidecar codec (`json.dumps`/`json.loads`) round-trips
string/number/boolean/mapping values exactly (spec §4.2), so metadata-store
file contents are modelled as the decoded descriptor mappings themselves.
-/

namespace Tulip

/-- A slash-separated entry path, modelled by its list of components. -/
abbrev Path := List String

/-- A byte string, modelled as the list of its byte values. -/
abbrev Bytes := List Nat

/-- JSON-style values appearing in metadata descriptors. -/
inductive JVal where
  | null
  | str (s : String)
  | num (n : Nat)
  | bool (b : Bool)
  | obj (fields : List (String × JVal))

/-- A decoded metadata descriptor: a mapping from field names to values
(`dict` in the source, insertion-ordered). -/
abbrev Descriptor := List (String × JVal)

/-- Errors raised by backend filesystems.  `backend n` stands for an
injected backend failure (connection error, permission error, ...). -/
inductive Err where
  | notFound
  | fileExists
  | notEmpty
  | isADirectory
  | notADirectory
  | attributeError
  | backend (code : Nat)
deriving DecidableEq

/-- A node of a backend store: a directory or a file with contents of
type `α` (`Bytes` for the content store, decoded descriptors for the
metadata store). -/
inductive Node (α : Type) where
  | dir
  | file (v : α)

/-- A backend filesystem: a finite map from paths to nodes, represented as
an association list where the first binding of a path wins. -/
abbrev Store (α : Type) := List (Path × Node α)

namespace Store

variable {α : Type}

/-- Look up the node at a path. -/
def find? (s : Store α) (p : Path) : Option (Node α) :=
  match s with
  | [] => none
  | (q, n) :: rest => if q = p then some n else find? rest p

/-- Existence check (`exists` in fsspec). -/
def pathExists (s : Store α) (p : Path) : Bool :=
  (find? s p).isSome

/-- Is there a directory at path `p`?  (The root, the empty path, is
implicitly a directory in every backend.) -/
def isDirAt (s : Store α) (p : Path) : Bool :=
  p.isEmpty ||
    match find? s p with
    | some .dir => true
    | _ => false

/-- Remove the binding of exactly the path `p`. -/
def erase (s : Store α) (p : Path) : Store α :=
  match s with
  | [] => []
  | e :: rest => if e.1 = p then erase rest p else e :: erase rest p

/-- Bind path `p` to node `n`, overwriting any previous binding. -/
def insert (s : Store α) (p : Path) (n : Node α) : Store α :=
  (p, n) :: erase s p

/-- Does `p` have a strict descendant in the store? -/
def hasChild (s : Store α) (p : Path) : Bool :=
  s.any fun e => p.isPrefixOf e.1 && decide (p.length < e.1.length)

/-- Remove `p` and every descendant of `p`. -/
def removeTree (s : Store α) (p : Path) : Store α :=
  match s with
  | [] => []
  | e :: rest =>
    if p.isPrefixOf e.1 then removeTree rest p else e :: removeTree rest p

/-- The non-empty prefixes of a path, shortest (outermost ancestor) first:
the accumulated left-to-right walk of `itertools.accumulate` over
`Path(path).parts` in `TulipFS.makedirs`. -/
def prefixesOf (p : Path) : List Path :=
  (List.range p.length).map fun i => p.take (i + 1)

/-- Create a single directory if absent; an existing directory is kept,
an existing file is an error. -/
def mkdirOne (s : Store α) (p : Path) : Except Err (Store α) :=
  match find? s p with
  | none => .ok (insert s p .dir)
  | some .dir => .ok s
  | some (.file _) => .error .fileExists

/-- Create each listed directory in order (helper for `makedirs`). -/
def mkdirAll (s : Store α) : List Path → Except Err (Store α)
  | [] => .ok s
  | q :: rest =>
    match mkdirOne s q with
    | .ok s' => mkdirAll s' rest
    | .error e => .error e

/-- The `makedirs(path, exist_ok=...)` operation of the capability interface: create the
path and all ancestors; with `exist_ok = false` an existing path is an
error. -/
def makedirs (fault : Option Err) (s : Store α) (p : Path) (existOk : Bool) :
    Except Err (Store α) :=
  match fault with
  | some e => .error e
  | none =>
    if !existOk && pathExists s p then .error .fileExists
    else mkdirAll s (prefixesOf p)

/-- The `rmdir(path)` operation of the capability interface: remove an empty directory. -/
def rmdir (fault : Option Err) (s : Store α) (p : Path) : Except Err (Store α) :=
  match fault with
  | some e => .error e
  | none =>
    match find? s p with
    | none => .error .notFound
    | some (.file _) => .error .notADirectory
    | some .dir =>
      if hasChild s p then .error .notEmpty else .ok (erase s p)

/-- The `rm(path, recursive=...)` operation of the capability interface: remove a file, or
a directory subtree when `recursive`. -/
def rm (fault : Option Err) (s : Store α) (p : Path) (recursive : Bool) :
    Except Err (Store α) :=
  match fault with
  | some e => .error e
  | none =>
    match find? s p with
    | none => .error .notFound
    | some (.file _) => .ok (erase s p)
    | some .dir =>
      if recursive then .ok (removeTree s p) else .error .isADirectory

/-- Whole-file write (`open(path, "wb")` + `write`, `writebytes`): the
parent directory must exist (the root always does). -/
def writeFile (fault : Option Err) (s : Store α) (p : Path) (v : α) :
    Except Err (Store α) :=
  match fault with
  | some e => .error e
  | none =>
    match find? s p with
    | some .dir => .error .isADirectory
    | _ =>
      if isDirAt s p.dropLast then
        .ok (insert s p (.file v))
      else .error .notFound

/-- Whole-file read (`cat_file`, `readbytes`). -/
def cat_file (fault : Option Err) (s : Store α) (p : Path) : Except Err α :=
  match fault with
  | some e => .error e
  | none =>
    match find? s p with
    | none => .error .notFound
    | some .dir => .error .isADirectory
    | some (.file v) => .ok v

/-- Copy the subtree rooted at `p1` onto `p2` (descendant paths are
re-rooted). -/
def copyTree (s : Store α) (p1 p2 : Path) : Store α :=
  (s.filter fun e => p1.isPrefixOf e.1).foldl
    (fun acc e => insert acc (p2 ++ e.1.drop p1.length) e.2) s

/-- The `copy(path1, path2, recursive=...)` operation of the capability interface. -/
def copy (fault : Option Err) (s : Store α) (p1 p2 : Path) (recursive : Bool) :
    Except Err (Store α) :=
  match fault with
  | some e => .error e
  | none =>
    match find? s p1 with
    | none => .error .notFound
    | some (.file v) => .ok (insert s p2 (.file v))
    | some .dir =>
      if recursive then .ok (copyTree s p1 p2) else .ok (insert s p2 .dir)

/-- The `move(path1, path2)` operation of the capability interface. -/
def move (fault : Option Err) (s : Store α) (p1 p2 : Path) :
    Except Err (Store α) :=
  match fault with
  | some e => .error e
  | none =>
    match find? s p1 with
    | none => .error .notFound
    | some (.file v) => .ok (insert (erase s p1) p2 (.file v))
    | some .dir => .ok (removeTree (copyTree s p1 p2) p1)

end Store

/-!
## SHA-256

`TulipFile._get_digests` calls `hashlib.sha256(...).hexdigest()`; the hash
itself is computed by the standard library.  It is embedded here as the
FIPS 180-4 SHA-256 function over byte lists, with 32-bit words as `Nat`
reduced `% 2^32`. -/

namespace SHA256

/-- The word modulus `2^32`. -/
def M32 : Nat := 4294967296

/-- Right rotation of a 32-bit word. -/
def rotr (n x : Nat) : Nat := ((x <<< (32 - n)) ||| (x >>> n)) % M32

/-- The choice function `Ch(e,f,g)`. -/
def ch (e f g : Nat) : Nat := (e &&& f) ^^^ ((e ^^^ 4294967295) &&& g)

/-- The majority function `Maj(a,b,c)`. -/
def maj (a b c : Nat) : Nat := (a &&& b) ^^^ (a &&& c) ^^^ (b &&& c)

/-- The big sigma-0 function. -/
def bigSigma0 (x : Nat) : Nat := rotr 2 x ^^^ rotr 13 x ^^^ rotr 22 x

/-- The big sigma-1 function. -/
def bigSigma1 (x : Nat) : Nat := rotr 6 x ^^^ rotr 11 x ^^^ rotr 25 x

/-- The small sigma-0 function. -/
def smallSigma0 (x : Nat) : Nat := rotr 7 x ^^^ rotr 18 x ^^^ (x >>> 3)

/-- The small sigma-1 function. -/
def smallSigma1 (x : Nat) : Nat := rotr 17 x ^^^ rotr 19 x ^^^ (x >>> 10)

/-- The 64 round constants of FIPS 180-4 (the fractional parts of the
cube roots of the first 64 primes), written in decimal. -/
def K : List Nat :=
  [1116352408, 1899447441, 3049323471, 3921009573, 961987163,
   1508970993, 2453635748, 2870763221, 3624381080, 310598401,
   607225278, 1426881987, 1925078388, 2162078206, 2614888103,
   3248222580, 3835390401, 4022224774, 264347078, 604807628,
   770255983, 1249150122, 1555081692, 1996064986, 2554220882,
   2821834349, 2952996808, 3210313671, 3336571891, 3584528711,
   113926993, 338241895, 666307205, 773529912, 1294757372,
   1396182291, 1695183700, 1986661051, 2177026350, 2456956037,
   2730485921, 2820302411, 3259730800, 3345764771, 3516065817,
   3600352804, 4094571909, 275423344, 430227734, 506948616,
   659060556, 883997877, 958139571, 1322822218, 1537002063,
   1747873779, 1955562222, 2024104815, 2227730452, 2361852424,
   2428436474, 2756734187, 3204031479, 3329325298]

/-- The eight-word working state. -/
structure HS where
  a : Nat
  b : Nat
  c : Nat
  d : Nat
  e : Nat
  f : Nat
  g : Nat
  h : Nat

/-- The initial hash value `H⁽⁰⁾`. -/
def h0 : HS :=
  ⟨1779033703, 3144134277, 1013904242, 2773480762,
   1359893119, 2600822924, 528734635, 1541459225⟩

/-- One compression round with constant `kw.1` and schedule word `kw.2`. -/
def step (s : HS) (kw : Nat × Nat) : HS :=
  let t1 := (s.h + bigSigma1 s.e + ch s.e s.f s.g + kw.1 + kw.2) % M32
  let t2 := (bigSigma0 s.a + maj s.a s.b s.c) % M32
  { a := (t1 + t2) % M32, b := s.a, c := s.b, d := s.c,
    e := (s.d + t1) % M32, f := s.e, g := s.f, h := s.g }

/-- SHA-256 padding: `0x80`, zeros to 56 mod 64, 64-bit big-endian bit
length. -/
def padMessage (m : List Nat) : List Nat :=
  let mb := m.map (· % 256)
  let bitLen := 8 * mb.length
  mb ++ [128] ++ List.replicate ((119 - mb.length % 64) % 64) 0
     ++ (List.range 8).map fun i => (bitLen >>> (56 - 8 * i)) % 256

/-- Big-endian 4-byte groups to 32-bit words. -/
def bytesToWords : List Nat → List Nat
  | b0 :: b1 :: b2 :: b3 :: rest =>
      ((b0 <<< 24) ||| (b1 <<< 16) ||| (b2 <<< 8) ||| b3) :: bytesToWords rest
  | _ => []

/-- Append the next message-schedule word. -/
def extendStep (w : List Nat) : List Nat :=
  let n := w.length
  w ++ [(smallSigma1 (w.getD (n - 2) 0) + w.getD (n - 7) 0 +
         smallSigma0 (w.getD (n - 15) 0) + w.getD (n - 16) 0) % M32]

/-- Extend the 16 block words to the 64 schedule words. -/
def schedule (w : List Nat) : List Nat := Nat.repeat extendStep 48 w

/-- Componentwise addition of states, `% 2^32`. -/
def addHS (x y : HS) : HS :=
  ⟨(x.a + y.a) % M32, (x.b + y.b) % M32, (x.c + y.c) % M32, (x.d + y.d) % M32,
   (x.e + y.e) % M32, (x.f + y.f) % M32, (x.g + y.g) % M32, (x.h + y.h) % M32⟩

/-- Compress one 64-byte block into the running state. -/
def compress (s : HS) (block : List Nat) : HS :=
  addHS s ((K.zip (schedule (bytesToWords block))).foldl step s)

/-- Split a list into 64-byte groups; the fuel (any bound on the number of
groups, e.g. the list length) keeps the recursion structural. -/
def blocksAux : Nat → List Nat → List (List Nat)
  | 0, _ => []
  | fuel + 1, l =>
    if l.isEmpty then [] else l.take 64 :: blocksAux fuel (l.drop 64)

/-- Split a padded message into 64-byte blocks. -/
def blocks (l : List Nat) : List (List Nat) := blocksAux l.length l

/-- One lowercase hexadecimal digit. -/
def hexDigit (n : Nat) : Char :=
  Char.ofNat (if n < 10 then 48 + n else 87 + n)

/-- A 32-bit word as 8 lowercase hex characters. -/
def wordToHex (w : Nat) : String :=
  String.mk ((List.range 8).map fun i => hexDigit ((w >>> (28 - 4 * i)) % 16))

/-- The lowercase hex SHA-256 digest, `hashlib.sha256(m).hexdigest()`. -/
def sha256hex (m : List Nat) : String :=
  let fin := (blocks (padMessage m)).foldl compress h0
  String.join ([fin.a, fin.b, fin.c, fin.d, fin.e, fin.f, fin.g, fin.h].map
    wordToHex)

end SHA256

/-!
## `src/tulip/objects.py`: metadata generation and entity operations -/

/-- Python `fs.path.basename`: the final component of a path (empty for the root). -/
def basename (p : Path) : String := p.getLastD ""

/-- Join path components back into the slash-separated string the
descriptors record in their `path` field. -/
def pathStr (p : Path) : String := String.intercalate "/" p

/-- The fixed sidecar filename. -/
def sidecarName : String := "tulip.json"

/-- Source `TulipEntity.metadata_path`: `str(Path(self.path) / "tulip.json")`. -/
def metadata_path (p : Path) : Path := p ++ [sidecarName]

/-- Field lookup in a descriptor (first binding wins, as in a `dict`). -/
def metaLookup (m : Descriptor) (k : String) : Option JVal :=
  match m with
  | [] => none
  | (k2, v) :: rest => if k2 = k then some v else metaLookup rest k

/-- Python `dict.update`: keys already present are overwritten in place,
new keys are appended in mixin order. -/
def dictUpdate (m mixins : Descriptor) : Descriptor :=
  (m.map fun kv =>
    match metaLookup mixins kv.1 with
    | some v => (kv.1, v)
    | none => kv) ++
  mixins.filter fun kv => (metaLookup m kv.1).isNone

/-- Source `TulipObject.generate_metadata`; `now` is the injected wall-clock
reading used for both timestamp fields. -/
def TulipObject.generate_metadata (now : String) (path : Path) : Descriptor :=
  [("type", .str "object"),
   ("path", .str (pathStr path)),
   ("name", .str (basename path)),
   ("created_at", .str now),
   ("updated_at", .str now)]

/-- Source `TulipFile._get_file_size`. -/
def TulipFile.get_file_size : Option Bytes → Nat
  | some d => d.length
  | none => 0

/-- Source `TulipFile._get_digests`. -/
def TulipFile.get_digests : Option Bytes → Descriptor
  | some d => [("sha256", .str (SHA256.sha256hex d))]
  | none => [("sha256", .null)]

/-- Source `TulipFile.generate_metadata`. -/
def TulipFile.generate_metadata (now : String) (path : Path)
    (data : Option Bytes) : Descriptor :=
  [("type", .str "file"),
   ("path", .str (pathStr path)),
   ("name", .str (basename path)),
   ("size", .num (TulipFile.get_file_size data)),
   ("digests", .obj (TulipFile.get_digests data)),
   ("created_at", .str now),
   ("updated_at", .str now)]

/-- Source `TulipEntity.update_metadata`: read the current descriptor from the
metadata store (`assets_fs.readbytes` + decode), `dict.update` the mixins
over it, and write it back in full (`assets_fs.writebytes`). -/
def TulipEntity.update_metadata (fRead fWrite : Option Err)
    (assets : Store Descriptor) (path : Path) (mixins : Descriptor) :
    Store Descriptor × Except Err Unit :=
  match Store.cat_file fRead assets (metadata_path path) with
  | .error e => (assets, .error e)
  | .ok m =>
    match Store.writeFile fWrite assets (metadata_path path)
        (dictUpdate m mixins) with
    | .error e => (assets, .error e)
    | .ok a2 => (a2, .ok ())

/-!
## `src/tulip/filesystem.py`: the Dual-Store Filesystem

`FSState` is the pair of backend stores held by a `TulipFS` instance.
Every orchestrated operation returns the final state next to its result,
and takes one `Option Err` fault argument per backend call it makes. -/

/-- The two backends of a `TulipFS`: the content store `objects_fs` and
the metadata store `assets_fs`. -/
structure FSState where
  objects_fs : Store Bytes
  assets_fs : Store Descriptor

/-- Source `TulipFS.write_metadata`: `assets_fs.makedirs(path, exist_ok=True)`,
then write the encoded descriptor to `<path>/tulip.json`.  On failure the
partially mutated metadata store is kept (Python mutates in place). -/
def TulipFS.write_metadata (fMk fWr : Option Err) (assets : Store Descriptor)
    (path : Path) (metadata : Descriptor) :
    Store Descriptor × Except Err Bool :=
  match Store.makedirs fMk assets path true with
  | .error e => (assets, .error e)
  | .ok a1 =>
    match Store.writeFile fWr a1 (metadata_path path) metadata with
    | .error e => (a1, .error e)
    | .ok a2 => (a2, .ok true)

/-- Source `TulipFS.makedir`: `objects_fs.makedirs(path, exist_ok=False)`, then
generate and write the object descriptor; if the metadata step raises,
try `objects_fs.rmdir(path)` (swallowing its own failure) and re-raise
the original error. -/
def TulipFS.makedir (now : String) (fObjMk fMk fWr fRb : Option Err)
    (st : FSState) (path : Path) : FSState × Except Err Bool :=
  match Store.makedirs fObjMk st.objects_fs path false with
  | .error e => (st, .error e)
  | .ok objs =>
    match TulipFS.write_metadata fMk fWr st.assets_fs path
        (TulipObject.generate_metadata now path) with
    | (assets, .ok _) => (⟨objs, assets⟩, .ok true)
    | (assets, .error e) =>
      let objs2 :=
        match Store.rmdir fRb objs path with
        | .ok s => s
        | .error _ => objs
      (⟨objs2, assets⟩, .error e)

/-- The metadata loop of `TulipFS.makedirs`: for each accumulated prefix,
left to right, generate and write an object descriptor; stop at the first
failure, returning the metadata store written so far and the error.
`fMeta` gives the two `write_metadata` backend faults for each prefix. -/
def TulipFS.writeMetaAll (now : String) (fMeta : Path → Option Err × Option Err)
    (assets : Store Descriptor) : List Path → Store Descriptor × Except Err Unit
  | [] => (assets, .ok ())
  | q :: rest =>
    match TulipFS.write_metadata (fMeta q).1 (fMeta q).2 assets q
        (TulipObject.generate_metadata now q) with
    | (a1, .ok _) => TulipFS.writeMetaAll now fMeta a1 rest
    | (a1, .error e) => (a1, .error e)

/-- Source `TulipFS.makedirs`: `objects_fs.makedirs(path, exist_ok=...)`, then the
metadata loop over the accumulated prefixes of the path; if the loop
raises, try `objects_fs.rm(path, recursive=True)` (swallowing its own
failure) and re-raise the original error. -/
def TulipFS.makedirs (now : String) (fObjMk : Option Err)
    (fMeta : Path → Option Err × Option Err) (fRb : Option Err)
    (st : FSState) (path : Path) (exist_ok : Bool) : FSState × Except Err Bool :=
  match Store.makedirs fObjMk st.objects_fs path exist_ok with
  | .error e => (st, .error e)
  | .ok objs =>
    match TulipFS.writeMetaAll now fMeta st.assets_fs (Store.prefixesOf path) with
    | (assets, .ok _) => (⟨objs, assets⟩, .ok true)
    | (assets, .error e) =>
      let objs2 :=
        match Store.rm fRb objs path true with
        | .ok s => s
        | .error _ => objs
      (⟨objs2, assets⟩, .error e)

/-- Source `TulipFS.pipe_file`: write the bytes to the content store
(`objects_fs.open(path, "wb")` + `write`), then generate and write the
file descriptor; if the metadata step raises, try `objects_fs.rm(path)`
(swallowing its own failure) and re-raise the original error. -/
def TulipFS.pipe_file (now : String) (fWrite fMk fWr fRb : Option Err)
    (st : FSState) (path : Path) (value : Bytes) : FSState × Except Err Bool :=
  match Store.writeFile fWrite st.objects_fs path value with
  | .error e => (st, .error e)
  | .ok objs =>
    match TulipFS.write_metadata fMk fWr st.assets_fs path
        (TulipFile.generate_metadata now path (some value)) with
    | (assets, .ok _) => (⟨objs, assets⟩, .ok true)
    | (assets, .error e) =>
      let objs2 :=
        match Store.rm fRb objs path false with
        | .ok s => s
        | .error _ => objs
      (⟨objs2, assets⟩, .error e)

/-- Source `TulipFS.rmdir`: record whether metadata exists at the path, try
`assets_fs.rm(path, recursive=True)` — re-raising only when metadata
existed — then `objects_fs.rmdir(path)`. -/
def TulipFS.rmdir (fARm fORmdir : Option Err) (st : FSState) (path : Path) :
    FSState × Except Err Unit :=
  let metadata_existed := Store.pathExists st.assets_fs path
  match Store.rm fARm st.assets_fs path true with
  | .ok assets =>
    match Store.rmdir fORmdir st.objects_fs path with
    | .ok objs => (⟨objs, assets⟩, .ok ())
    | .error e => (⟨st.objects_fs, assets⟩, .error e)
  | .error e =>
    if metadata_existed then (st, .error e)
    else
      match Store.rmdir fORmdir st.objects_fs path with
      | .ok objs => (⟨objs, st.assets_fs⟩, .ok ())
      | .error e2 => (st, .error e2)

/-- Source `TulipFS.rm`: record whether metadata exists at the path, try
`assets_fs.rm(path, recursive=True)` (always recursive for metadata
cleanup) — re-raising only when metadata existed — then
`objects_fs.rm(path, recursive=...)`. -/
def TulipFS.rm (fARm fORm : Option Err) (st : FSState) (path : Path)
    (recursive : Bool) : FSState × Except Err Unit :=
  let metadata_existed := Store.pathExists st.assets_fs path
  match Store.rm fARm st.assets_fs path true with
  | .ok assets =>
    match Store.rm fORm st.objects_fs path recursive with
    | .ok objs => (⟨objs, assets⟩, .ok ())
    | .error e => (⟨st.objects_fs, assets⟩, .error e)
  | .error e =>
    if metadata_existed then (st, .error e)
    else
      match Store.rm fORm st.objects_fs path recursive with
      | .ok objs => (⟨objs, st.assets_fs⟩, .ok ())
      | .error e2 => (st, .error e2)

/-- Source `TulipFS.copy`: copy in the content store first; if metadata exists at
`path1`, mirror the copy (recursively) into the metadata store. -/
def TulipFS.copy (fOCopy fACopy : Option Err) (st : FSState)
    (path1 path2 : Path) (recursive : Bool) : FSState × Except Err Unit :=
  match Store.copy fOCopy st.objects_fs path1 path2 recursive with
  | .error e => (st, .error e)
  | .ok objs =>
    if Store.pathExists st.assets_fs path1 then
      match Store.copy fACopy st.assets_fs path1 path2 true with
      | .error e => (⟨objs, st.assets_fs⟩, .error e)
      | .ok assets => (⟨objs, assets⟩, .ok ())
    else (⟨objs, st.assets_fs⟩, .ok ())

/-- Source `TulipFS.move`: move in the content store first; if metadata exists at
`path1`, mirror the move into the metadata store. -/
def TulipFS.move (fOMove fAMove : Option Err) (st : FSState)
    (path1 path2 : Path) : FSState × Except Err Unit :=
  match Store.move fOMove st.objects_fs path1 path2 with
  | .error e => (st, .error e)
  | .ok objs =>
    if Store.pathExists st.assets_fs path1 then
      match Store.move fAMove st.assets_fs path1 path2 with
      | .error e => (⟨objs, st.assets_fs⟩, .error e)
      | .ok assets => (⟨objs, assets⟩, .ok ())
    else (⟨objs, st.assets_fs⟩, .ok ())

/-!
### The streaming write handle -/

/-- The observable state of a `TulipFileHandle`: its bound path, its open
mode string, and whether `close` already ran. -/
structure TulipFileHandle where
  path : Path
  mode : String
  closed : Bool

/-- The mode test `any(m in mode for m in ["w", "a", "+"])`. -/
def isMutatingMode (mode : String) : Bool :=
  mode.data.any fun c => c == 'w' || c == 'a' || c == '+'

/-- Source `TulipFileHandle._generate_metadata`: if the entry exists in the
content store, read it back, regenerate the file descriptor from its
bytes, and write the sidecar; if the read-back or the metadata write
raises, try `objects_fs.rm(path)` (swallowing its own failure) and
re-raise.  If the entry does not exist, do nothing. -/
def TulipFileHandle.generateMetadata (now : String)
    (fCat fMk fWr fRm : Option Err) (st : FSState) (path : Path) :
    FSState × Except Err Unit :=
  if Store.pathExists st.objects_fs path then
    match Store.cat_file fCat st.objects_fs path with
    | .ok contents =>
      match TulipFS.write_metadata fMk fWr st.assets_fs path
          (TulipFile.generate_metadata now path (some contents)) with
      | (assets, .ok _) => (⟨st.objects_fs, assets⟩, .ok ())
      | (assets, .error e) =>
        let objs :=
          match Store.rm fRm st.objects_fs path false with
          | .ok s => s
          | .error _ => st.objects_fs
        (⟨objs, assets⟩, .error e)
    | .error e =>
      let objs :=
        match Store.rm fRm st.objects_fs path false with
        | .ok s => s
        | .error _ => st.objects_fs
      (⟨objs, st.assets_fs⟩, .error e)
  else (st, .ok ())

/-- Source `TulipFileHandle.close`: a second close is a no-op; otherwise close the
underlying stream, mark the handle closed, and — when the mode is a
content-mutating one — run `_generate_metadata`. -/
def TulipFileHandle.close (now : String) (fCat fMk fWr fRm : Option Err)
    (st : FSState) (h : TulipFileHandle) :
    TulipFileHandle × FSState × Except Err Unit :=
  if h.closed then (h, st, .ok ())
  else
    let h2 : TulipFileHandle := ⟨h.path, h.mode, true⟩
    if isMutatingMode h.mode then
      let r := TulipFileHandle.generateMetadata now fCat fMk fWr fRm st h.path
      (h2, r.1, r.2)
    else (h2, st, .ok ())

/-!
## Entity façade method dispatch (`objects.py` / `repository.py`)

`TulipFile.save`, `TulipFile.delete` and `TulipObject.delete` call methods
named `writebytes`, `remove`, `removetree` and `removedir` on the
`TulipFS` instance (`self.repository.tulipfs.<name>(...)`).  Python
resolves such a call by attribute lookup on the `TulipFS` class and its
base class, raising `AttributeError` when no method of that name exists.
The names below are transcribed from the `class TulipFS` body in
`src/tulip/filesystem.py`. -/

/-- The method names defined by `class TulipFS` itself. -/
def TulipFS.definedMethods : List String :=
  ["__init__", "_parse_fs_url", "write_metadata", "makedir", "makedirs",
   "pipe_file", "_open", "rmdir", "rm", "cat_file", "cat", "exists", "info",
   "isfile", "isdir", "ls", "listdir", "glob", "find", "size", "checksum",
   "copy", "move"]

/-- Modelled from the spec: `TulipFS` inherits from the streaming
filesystem base class `fsspec.spec.AbstractFileSystem`, an external
collaborator (spec §1) whose surface is the conventional capability set of
§4.3/§6 in fsspec's spelling — it defines no attribute named `writebytes`,
`remove`, `removetree` or `removedir` (those are the *other* filesystem
library's spellings, used only by the backends of §6). -/
def TulipFS.inheritedMethods : List String :=
  ["mkdir", "mkdirs", "makedirs", "makedir", "rmdir", "rm", "rm_file",
   "delete", "open", "touch", "cat", "cat_file", "cat_ranges", "pipe",
   "pipe_file", "read_bytes", "write_bytes", "read_text", "write_text",
   "read_block", "head", "tail", "exists", "lexists", "info", "stat",
   "checksum", "size", "sizes", "isdir", "isfile", "ls", "listdir", "walk",
   "find", "du", "disk_usage", "glob", "expand_path", "copy", "cp",
   "cp_file", "mv", "move", "rename", "get", "get_file", "put", "put_file",
   "upload", "download", "created", "modified", "ukey", "sign", "to_json",
   "to_dict", "from_json", "from_dict", "clear_instance_cache",
   "current", "start_transaction", "end_transaction", "invalidate_cache",
   "unstrip_protocol", "tree"]

/-- Does attribute lookup on a `TulipFS` instance find a method `name`? -/
def TulipFS.hasMethod (name : String) : Bool :=
  TulipFS.definedMethods.contains name || TulipFS.inheritedMethods.contains name

/-- Invoke `tulipfs.<name>(...)`: attribute lookup first, raising
`AttributeError` when the class hierarchy defines no such method.  (The
façade claims below only need the lookup outcome, not the behaviour of a
found method.) -/
def TulipFS.callMethod (name : String) : Except Err Unit :=
  if TulipFS.hasMethod name then .ok () else .error .attributeError

/-- Source `TulipFile.save`: `self.repository.tulipfs.writebytes(self.path,
self.data)` (then an optional mixin update, unreachable when the call
raises). -/
def TulipFile.save : Except Err Unit :=
  TulipFS.callMethod "writebytes"

/-- Source `TulipFile.delete`: `self.repository.tulipfs.remove(self.path)`. -/
def TulipFile.delete : Except Err Unit :=
  TulipFS.callMethod "remove"

/-- Source `TulipObject.delete`: `removetree` when recursive, else `removedir`,
on `self.repository.tulipfs`. -/
def TulipObject.delete (recursive : Bool) : Except Err Unit :=
  if recursive then TulipFS.callMethod "removetree"
  else TulipFS.callMethod "removedir"

/-- Source `TulipRepository.create_file`: builds a `TulipFile` and calls its
`save`. -/
def TulipRepository.create_file : Except Err Unit :=
  TulipFile.save

/-- Source `TulipRepository.delete_file`: builds a `TulipFile` and calls its
`delete`. -/
def TulipRepository.delete_file : Except Err Unit :=
  TulipFile.delete

/-- Source `TulipRepository.delete_object`: builds a `TulipObject` and calls its
`delete(recursive=...)`. -/
def TulipRepository.delete_object (recursive : Bool) : Except Err Unit :=
  TulipObject.delete recursive

/-- The sidecar descriptor for `p` exists in the metadata store and its
`type` field is `ty` (the decoded-descriptor shape asserted by P1). -/
def sidecarTyped (assets : Store Descriptor) (p : Path) (ty : String) : Prop :=
  ∃ m, Store.find? assets (metadata_path p) = some (Node.file m) ∧
    metaLookup m "type" = some (.str ty)

/-- The `digests.sha256` field of a descriptor. -/
def descriptorSha256 (m : Descriptor) : Option JVal :=
  match metaLookup m "digests" with
  | some (.obj d) => metaLookup d "sha256"
  | _ => none

/-!
## Supporting lemmas about the store model -/
namespace Store

variable {α : Type}

theorem find?_erase_ne (s : Store α) {p q : Path} (h : q ≠ p) :
    find? (erase s p) q = find? s q := by
  induction s with
  | nil => rfl
  | cons e rest ih =>
    by_cases he : e.1 = p
    · have hne : ¬ (e.1 = q) := fun hq => h (hq ▸ he)
      have hpq : ¬ (p = q) := fun hp => h hp.symm
      simp only [erase, he, if_true, find?, hne, if_false, ih, hpq]
    · simp only [erase, he, if_false, find?]
      by_cases heq : e.1 = q
      · simp [heq]
      · simp only [heq, if_false]; exact ih

theorem find?_erase_self (s : Store α) (p : Path) :
    find? (erase s p) p = none := by
  induction s with
  | nil => rfl
  | cons e rest ih =>
    by_cases he : e.1 = p
    · simpa only [erase, he, if_true] using ih
    · simp only [erase, he, if_false, find?, if_neg he]
      exact ih

theorem find?_insert_self (s : Store α) (p : Path) (n : Node α) :
    find? (insert s p n) p = some n := by
  simp [insert, find?]

theorem find?_insert_ne (s : Store α) {p q : Path} (n : Node α) (h : q ≠ p) :
    find? (insert s p n) q = find? s q := by
  simp only [insert, find?]
  rw [if_neg (fun hq => h hq.symm)]
  exact find?_erase_ne s h

theorem find?_removeTree_none (s : Store α) {p q : Path}
    (h : p.isPrefixOf q = true) : find? (removeTree s p) q = none := by
  induction s with
  | nil => rfl
  | cons e rest ih =>
    by_cases he : p.isPrefixOf e.1 = true
    · simpa only [removeTree, he, if_true] using ih
    · have hne : ¬ (e.1 = q) := by
        intro hq; rw [hq, h] at he; exact he rfl
      simp only [removeTree, he, if_false, find?, hne]
      exact ih

theorem find?_removeTree_ne (s : Store α) {p q : Path}
    (h : p.isPrefixOf q = false) : find? (removeTree s p) q = find? s q := by
  induction s with
  | nil => rfl
  | cons e rest ih =>
    by_cases he : p.isPrefixOf e.1 = true
    · have hne : ¬ (e.1 = q) := by
        intro hq; rw [hq, h] at he; cases he
      simp only [removeTree, he, if_true, find?, hne, if_false]
      exact ih
    · simp only [removeTree, he, if_false, find?]
      by_cases heq : e.1 = q
      · simp [heq]
      · simp only [heq, if_false]; exact ih

theorem isPrefixOf_refl (l : List String) : l.isPrefixOf l = true := by
  induction l with
  | nil => rfl
  | cons a rest ih => simp [List.isPrefixOf, ih]

/-- Creating one directory never disturbs an existing file binding. -/
theorem mkdirOne_ok_file {s s' : Store α} {q r : Path} {v : α}
    (hok : mkdirOne s q = .ok s') (hf : find? s r = some (.file v)) :
    find? s' r = some (.file v) := by
  unfold mkdirOne at hok
  rcases hq : find? s q with _ | n
  · simp only [hq] at hok
    cases hok
    by_cases hrq : r = q
    · rw [hrq] at hf; rw [hq] at hf; cases hf
    · rw [find?_insert_ne s _ hrq]; exact hf
  · cases n with
    | dir => simp only [hq] at hok; cases hok; exact hf
    | file w =>
      simp only [hq] at hok
      exact Except.noConfusion hok

/-- Creating one directory never disturbs an existing directory binding. -/
theorem mkdirOne_ok_dir {s s' : Store α} {q r : Path}
    (hok : mkdirOne s q = .ok s') (hf : find? s r = some .dir) :
    find? s' r = some .dir := by
  unfold mkdirOne at hok
  rcases hq : find? s q with _ | n
  · simp only [hq] at hok
    cases hok
    by_cases hrq : r = q
    · rw [hrq, find?_insert_self]
    · rw [find?_insert_ne s _ hrq]; exact hf
  · cases n with
    | dir => simp only [hq] at hok; cases hok; exact hf
    | file w =>
      simp only [hq] at hok
      exact Except.noConfusion hok

/-- After a successful `mkdirOne q`, a directory is bound at `q`. -/
theorem mkdirOne_ok_self {s s' : Store α} {q : Path}
    (hok : mkdirOne s q = .ok s') : find? s' q = some .dir := by
  unfold mkdirOne at hok
  rcases hq : find? s q with _ | n
  · simp only [hq] at hok; cases hok; rw [find?_insert_self]
  · cases n with
    | dir => simp only [hq] at hok; cases hok; exact hq
    | file w =>
      simp only [hq] at hok
      exact Except.noConfusion hok

/-- Creating a list of directories never disturbs an existing file binding. -/
theorem mkdirAll_ok_file {l : List Path} :
    ∀ {s s' : Store α} {r : Path} {v : α},
      mkdirAll s l = .ok s' → find? s r = some (.file v) →
      find? s' r = some (.file v) := by
  induction l with
  | nil => intro s s' r v hok hf; cases hok; exact hf
  | cons q rest ih =>
    intro s s' r v hok hf
    unfold mkdirAll at hok
    rcases h1 : mkdirOne s q with e | s1
    · simp only [h1] at hok
      exact Except.noConfusion hok
    · simp only [h1] at hok
      exact ih hok (mkdirOne_ok_file h1 hf)

/-- Creating a list of directories never disturbs an existing directory binding. -/
theorem mkdirAll_ok_dir {l : List Path} :
    ∀ {s s' : Store α} {r : Path},
      mkdirAll s l = .ok s' → find? s r = some .dir →
      find? s' r = some .dir := by
  induction l with
  | nil => intro s s' r hok hf; cases hok; exact hf
  | cons q rest ih =>
    intro s s' r hok hf
    unfold mkdirAll at hok
    rcases h1 : mkdirOne s q with e | s1
    · simp only [h1] at hok
      exact Except.noConfusion hok
    · simp only [h1] at hok
      exact ih hok (mkdirOne_ok_dir h1 hf)

/-- After a successful `mkdirAll`, every listed path is a directory. -/
theorem mkdirAll_ok_dir_mem {l : List Path} :
    ∀ {s s' : Store α} {q : Path},
      mkdirAll s l = .ok s' → q ∈ l → find? s' q = some .dir := by
  induction l with
  | nil => intro s s' q hok hmem; cases hmem
  | cons a rest ih =>
    intro s s' q hok hmem
    unfold mkdirAll at hok
    rcases h1 : mkdirOne s a with e | s1
    · simp only [h1] at hok
      exact Except.noConfusion hok
    · simp only [h1] at hok
      rcases List.mem_cons.mp hmem with hqa | hqrest
      · subst hqa
        exact mkdirAll_ok_dir hok (mkdirOne_ok_self h1)
      · exact ih hok hqrest

end Store

/-!
## Lemmas about paths, metadata writing and descriptor merging -/

theorem metadata_path_inj {p q : Path} (h : metadata_path p = metadata_path q) :
    p = q :=
  List.append_cancel_right h

theorem prefixesOf_pairwise_ne (p : Path) :
    (Store.prefixesOf p).Pairwise (· ≠ ·) := by
  unfold Store.prefixesOf
  refine List.pairwise_map.mpr ?_
  refine (List.pairwise_lt_range p.length).imp_of_mem ?_
  intro i j hi hj hij heq
  have hi' : i < p.length := List.mem_range.mp hi
  have hj' : j < p.length := List.mem_range.mp hj
  have hlen : (p.take (i + 1)).length = (p.take (j + 1)).length := by rw [heq]
  rw [List.length_take, List.length_take] at hlen
  omega

theorem self_mem_prefixesOf {p : Path} (h : p ≠ []) : p ∈ Store.prefixesOf p := by
  unfold Store.prefixesOf
  have hpos : 0 < p.length := List.length_pos.mpr h
  refine List.mem_map.mpr ⟨p.length - 1, List.mem_range.mpr (by omega), ?_⟩
  have hl : p.length - 1 + 1 = p.length := by omega
  rw [hl, List.take_length]

theorem mem_prefixesOf_isPrefixOf {p q : Path} (h : q ∈ Store.prefixesOf p) :
    q.isPrefixOf p = true := by
  unfold Store.prefixesOf at h
  rcases List.mem_map.mp h with ⟨i, -, rfl⟩
  exact List.isPrefixOf_iff_prefix.mpr (List.take_prefix _ _)

theorem prefixesOf_nil_of_nil {p : Path} (h : p = []) :
    Store.prefixesOf p = [] := by
  subst h; rfl

namespace Store

variable {α : Type}

theorem writeFile_ok_self {f : Option Err} {s s' : Store α} {p : Path} {v : α}
    (h : writeFile f s p v = .ok s') : find? s' p = some (.file v) := by
  unfold writeFile at h
  rcases f with _ | e
  · rcases hp : find? s p with _ | n
    · simp only [hp] at h
      by_cases hd : isDirAt s p.dropLast = true
      · rw [if_pos hd] at h; cases h; exact find?_insert_self s p _
      · rw [if_neg hd] at h; exact Except.noConfusion h
    · cases n with
      | dir => simp only [hp] at h; exact Except.noConfusion h
      | file w =>
        simp only [hp] at h
        by_cases hd : isDirAt s p.dropLast = true
        · rw [if_pos hd] at h; cases h; exact find?_insert_self s p _
        · rw [if_neg hd] at h; exact Except.noConfusion h
  · exact Except.noConfusion h

theorem writeFile_ok_other {f : Option Err} {s s' : Store α} {p q : Path} {v : α}
    (h : writeFile f s p v = .ok s') (hne : q ≠ p) : find? s' q = find? s q := by
  unfold writeFile at h
  rcases f with _ | e
  · rcases hp : find? s p with _ | n
    · simp only [hp] at h
      by_cases hd : isDirAt s p.dropLast = true
      · rw [if_pos hd] at h; cases h; exact find?_insert_ne s _ hne
      · rw [if_neg hd] at h; exact Except.noConfusion h
    · cases n with
      | dir => simp only [hp] at h; exact Except.noConfusion h
      | file w =>
        simp only [hp] at h
        by_cases hd : isDirAt s p.dropLast = true
        · rw [if_pos hd] at h; cases h; exact find?_insert_ne s _ hne
        · rw [if_neg hd] at h; exact Except.noConfusion h
  · exact Except.noConfusion h

theorem makedirs_ok_elim {f : Option Err} {s s' : Store α} {p : Path} {eo : Bool}
    (h : makedirs f s p eo = .ok s') : mkdirAll s (prefixesOf p) = .ok s' := by
  unfold makedirs at h
  rcases f with _ | e
  · by_cases hc : (!eo && pathExists s p) = true
    · rw [if_pos hc] at h; exact Except.noConfusion h
    · rw [if_neg hc] at h; exact h
  · exact Except.noConfusion h

theorem makedirs_ok_file {f : Option Err} {s s' : Store α} {p r : Path} {eo : Bool}
    {v : α} (h : makedirs f s p eo = .ok s') (hf : find? s r = some (.file v)) :
    find? s' r = some (.file v) :=
  mkdirAll_ok_file (makedirs_ok_elim h) hf

end Store

theorem write_metadata_ok_sidecar {fMk fWr : Option Err}
    {a a' : Store Descriptor} {p : Path} {m : Descriptor} {b : Bool}
    (h : TulipFS.write_metadata fMk fWr a p m = (a', .ok b)) :
    Store.find? a' (metadata_path p) = some (.file m) := by
  unfold TulipFS.write_metadata at h
  rcases h1 : Store.makedirs fMk a p true with e | a1
  · simp only [h1] at h
    cases h
  · simp only [h1] at h
    rcases h2 : Store.writeFile fWr a1 (metadata_path p) m with e | a2
    · simp only [h2] at h
      cases h
    · simp only [h2] at h
      cases h
      exact Store.writeFile_ok_self h2

theorem write_metadata_ok_other {fMk fWr : Option Err}
    {a a' : Store Descriptor} {p q : Path} {m v : Descriptor} {b : Bool}
    (h : TulipFS.write_metadata fMk fWr a p m = (a', .ok b))
    (hq : q ≠ metadata_path p) (hf : Store.find? a q = some (.file v)) :
    Store.find? a' q = some (.file v) := by
  unfold TulipFS.write_metadata at h
  rcases h1 : Store.makedirs fMk a p true with e | a1
  · simp only [h1] at h
    cases h
  · simp only [h1] at h
    rcases h2 : Store.writeFile fWr a1 (metadata_path p) m with e | a2
    · simp only [h2] at h
      cases h
    · simp only [h2] at h
      cases h
      rw [Store.writeFile_ok_other h2 hq]
      exact Store.makedirs_ok_file h1 hf

theorem write_metadata_error_file {fMk fWr : Option Err}
    {a a' : Store Descriptor} {p x : Path} {m v : Descriptor} {e : Err}
    (h : TulipFS.write_metadata fMk fWr a p m = (a', .error e))
    (hf : Store.find? a x = some (.file v)) :
    Store.find? a' x = some (.file v) := by
  unfold TulipFS.write_metadata at h
  rcases h1 : Store.makedirs fMk a p true with e1 | a1
  · simp only [h1] at h
    cases h
    exact hf
  · simp only [h1] at h
    rcases h2 : Store.writeFile fWr a1 (metadata_path p) m with e2 | a2
    · simp only [h2] at h
      cases h
      exact Store.makedirs_ok_file h1 hf
    · simp only [h2] at h
      cases h

theorem writeMetaAll_ok_preserve {now : String}
    {fMeta : Path → Option Err × Option Err} {l : List Path} :
    ∀ {a a' : Store Descriptor} {q : Path} {v : Descriptor},
      TulipFS.writeMetaAll now fMeta a l = (a', .ok ()) →
      (∀ r ∈ l, q ≠ metadata_path r) →
      Store.find? a q = some (.file v) → Store.find? a' q = some (.file v) := by
  induction l with
  | nil =>
    intro a a' q v h hall hf
    cases h
    exact hf
  | cons r rest ih =>
    intro a a' q v h hall hf
    unfold TulipFS.writeMetaAll at h
    rcases hw : TulipFS.write_metadata (fMeta r).1 (fMeta r).2 a r
        (TulipObject.generate_metadata now r) with ⟨a1, er⟩
    rcases er with e | b
    · simp only [hw] at h
      cases h
    · simp only [hw] at h
      refine ih h (fun x hx => hall x (List.mem_cons_of_mem r hx)) ?_
      exact write_metadata_ok_other hw (hall r (List.mem_cons_self r rest)) hf

theorem writeMetaAll_ok_sidecars {now : String}
    {fMeta : Path → Option Err × Option Err} {l : List Path} :
    ∀ {a a' : Store Descriptor},
      l.Pairwise (· ≠ ·) →
      TulipFS.writeMetaAll now fMeta a l = (a', .ok ()) →
      ∀ q ∈ l, Store.find? a' (metadata_path q) =
        some (.file (TulipObject.generate_metadata now q)) := by
  induction l with
  | nil =>
    intro a a' hpw h q hq
    cases hq
  | cons r rest ih =>
    intro a a' hpw h q hq
    unfold TulipFS.writeMetaAll at h
    rcases hw : TulipFS.write_metadata (fMeta r).1 (fMeta r).2 a r
        (TulipObject.generate_metadata now r) with ⟨a1, er⟩
    rcases er with e | b
    · simp only [hw] at h
      cases h
    · simp only [hw] at h
      rcases List.mem_cons.mp hq with hqr | hqrest
      · subst hqr
        refine writeMetaAll_ok_preserve h ?_ (write_metadata_ok_sidecar hw)
        intro x hx hcontra
        exact (List.pairwise_cons.mp hpw).1 x hx (metadata_path_inj hcontra)
      · exact ih (List.pairwise_cons.mp hpw).2 h q hqrest

theorem writeMetaAll_error_decomp {now : String}
    {fMeta : Path → Option Err × Option Err} {l : List Path} :
    ∀ {a a' : Store Descriptor} {e : Err},
      TulipFS.writeMetaAll now fMeta a l = (a', .error e) →
      ∃ l1 q l2 aMid, l = l1 ++ q :: l2 ∧
        TulipFS.writeMetaAll now fMeta a l1 = (aMid, .ok ()) ∧
        TulipFS.write_metadata (fMeta q).1 (fMeta q).2 aMid q
          (TulipObject.generate_metadata now q) = (a', .error e) := by
  induction l with
  | nil =>
    intro a a' e h
    cases h
  | cons r rest ih =>
    intro a a' e h
    unfold TulipFS.writeMetaAll at h
    rcases hw : TulipFS.write_metadata (fMeta r).1 (fMeta r).2 a r
        (TulipObject.generate_metadata now r) with ⟨a1, er⟩
    rcases er with e1 | b
    · simp only [hw] at h
      have hfst : a1 = a' := congrArg Prod.fst h
      have hsnd : e1 = e := Except.error.inj (congrArg Prod.snd h)
      subst hfst
      subst hsnd
      exact ⟨[], r, rest, a, rfl, rfl, hw⟩
    · simp only [hw] at h
      rcases ih h with ⟨l1, q, l2, aMid, hsplit, hok, hfail⟩
      refine ⟨r :: l1, q, l2, aMid, by rw [hsplit, List.cons_append], ?_, hfail⟩
      unfold TulipFS.writeMetaAll
      simp only [hw]
      exact hok

namespace Store

variable {α : Type}

theorem pathExists_false_find? {s : Store α} {p : Path}
    (h : pathExists s p = false) : find? s p = none := by
  rcases hf : find? s p with _ | n
  · rfl
  · unfold pathExists at h
    rw [hf] at h
    cases h

theorem pathExists_erase_self (s : Store α) (p : Path) :
    pathExists (erase s p) p = false := by
  unfold pathExists
  rw [find?_erase_self]
  rfl

theorem pathExists_removeTree_self (s : Store α) (p : Path) :
    pathExists (removeTree s p) p = false := by
  unfold pathExists
  rw [find?_removeTree_none s (isPrefixOf_refl p)]
  rfl

theorem rm_dir_recursive {s : Store α} {p : Path} (h : find? s p = some .dir) :
    rm none s p true = .ok (removeTree s p) := by
  unfold rm
  simp only [h]
  rw [if_pos trivial]

theorem rm_file_any {s : Store α} {p : Path} {v : α} (r : Bool)
    (h : find? s p = some (.file v)) : rm none s p r = .ok (erase s p) := by
  unfold rm
  simp only [h]

theorem rm_not_exists_error (f : Option Err) {s : Store α} {p : Path}
    (r : Bool) (h : pathExists s p = false) : ∃ e, rm f s p r = .error e := by
  rcases f with _ | e
  · refine ⟨.notFound, ?_⟩
    unfold rm
    rw [pathExists_false_find? h]
  · exact ⟨e, rfl⟩

theorem rmdir_empty_dir {s : Store α} {p : Path} (h : find? s p = some .dir)
    (hc : hasChild s p = false) : rmdir none s p = .ok (erase s p) := by
  unfold rmdir
  simp only [h, hc]
  rfl

end Store

theorem metaLookup_append (m1 m2 : Descriptor) (k : String) :
    metaLookup (m1 ++ m2) k =
      match metaLookup m1 k with
      | some v => some v
      | none => metaLookup m2 k := by
  induction m1 with
  | nil => rfl
  | cons kv rest ih =>
    rcases kv with ⟨k0, v0⟩
    by_cases hk : k0 = k
    · simp [metaLookup, hk]
    · simp only [List.cons_append, metaLookup, hk, if_false]
      exact ih

theorem metaLookup_mapOverride (m mixins : Descriptor) (k : String) :
    metaLookup (m.map fun kv =>
      match metaLookup mixins kv.1 with
      | some v => (kv.1, v)
      | none => kv) k =
      match metaLookup m k with
      | none => none
      | some v =>
        match metaLookup mixins k with
        | some w => some w
        | none => some v := by
  induction m with
  | nil => rfl
  | cons kv rest ih =>
    rcases kv with ⟨k0, v0⟩
    rcases hmix : metaLookup mixins k0 with _ | w
    · by_cases hk : k0 = k
      · subst hk
        simp [metaLookup, hmix]
      · simp only [List.map_cons, metaLookup, hmix, hk, if_false]
        exact ih
    · by_cases hk : k0 = k
      · subst hk
        simp [metaLookup, hmix]
      · simp only [List.map_cons, metaLookup, hmix, hk, if_false]
        exact ih

theorem metaLookup_filterNew (m mixins : Descriptor) (k : String)
    (hm : metaLookup m k = none) :
    metaLookup (mixins.filter fun kv => (metaLookup m kv.1).isNone) k =
      metaLookup mixins k := by
  induction mixins with
  | nil => rfl
  | cons kv rest ih =>
    rcases kv with ⟨k1, w⟩
    rw [List.filter_cons]
    by_cases hkeep : ((metaLookup m (k1, w).1).isNone = true)
    · rw [if_pos hkeep]
      by_cases hk : k1 = k
      · simp [metaLookup, hk]
      · simp only [metaLookup, hk, if_false]
        exact ih
    · rw [if_neg hkeep]
      by_cases hk : k1 = k
      · exact absurd (show (metaLookup m (k1, w).1).isNone = true by
          show (metaLookup m k1).isNone = true
          rw [hk, hm]
          rfl) hkeep
      · rw [show metaLookup ((k1, w) :: rest) k = metaLookup rest k by
          simp only [metaLookup, hk, if_false]]
        exact ih

/-- The first-lookup semantics of Python `dict.update`: a key takes the
mixin value when the mixins bind it and keeps its previous value
otherwise. -/
theorem metaLookup_dictUpdate (m mixins : Descriptor) (k : String) :
    metaLookup (dictUpdate m mixins) k =
      match metaLookup mixins k with
      | some v => some v
      | none => metaLookup m k := by
  unfold dictUpdate
  rw [metaLookup_append, metaLookup_mapOverride]
  rcases hm : metaLookup m k with _ | v
  · rw [metaLookup_filterNew m mixins k hm]
    rcases metaLookup mixins k with _ | w
    · rfl
    · rfl
  · rcases metaLookup mixins k with _ | w
    · rfl
    · rfl

/-!
## SHA-256 validation against published FIPS 180-4 test vectors -/

/-- The empty-message digest. -/
theorem sha256hex_empty : SHA256.sha256hex [] =
    "e3b0c44298fc1c149afbf4c8996fb92427ae41e4649b934ca495991b7852b855" := by
  decide

/-- The digest of `b"hi"` (the content of spec Scenario B). -/
theorem sha256hex_hi : SHA256.sha256hex [104, 105] =
    "8f434346648f6b96df89dda901c5176b10a6d83961dd3c1ac88b59b2dc327aa4" := by
  decide

/-- The digest of `b"abc"`. -/
theorem sha256hex_abc : SHA256.sha256hex [97, 98, 99] =
    "ba7816bf8f01cfea414140de5dae2223b00361a396177a9cb410ff61f20015ad" := by
  decide

/-!
## The claims -/

/-- Claim **C4**: the Entity Façade mutation operations invoke methods named
`writebytes`, `remove`, `removetree` and `removedir` on the Dual-Store
Filesystem; neither `class TulipFS` nor its base class defines any of
them, so `TulipFile.save`, `TulipFile.delete` and `TulipObject.delete` —
and hence `TulipRepository.create_file`, `delete_file` and
`delete_object` — fail with an attribute-lookup error instead of
performing the content-and-metadata operation. -/
theorem claim_C4 :
    TulipFS.definedMethods.contains "writebytes" = false ∧
    TulipFS.definedMethods.contains "remove" = false ∧
    TulipFS.definedMethods.contains "removetree" = false ∧
    TulipFS.definedMethods.contains "removedir" = false ∧
    TulipFS.hasMethod "writebytes" = false ∧
    TulipFS.hasMethod "remove" = false ∧
    TulipFS.hasMethod "removetree" = false ∧
    TulipFS.hasMethod "removedir" = false ∧
    TulipFile.save = .error .attributeError ∧
    TulipFile.delete = .error .attributeError ∧
    TulipObject.delete true = .error .attributeError ∧
    TulipObject.delete false = .error .attributeError ∧
    TulipRepository.create_file = .error .attributeError ∧
    TulipRepository.delete_file = .error .attributeError ∧
    TulipRepository.delete_object true = .error .attributeError ∧
    TulipRepository.delete_object false = .error .attributeError := by
  refine ⟨?_, ?_, ?_, ?_, ?_, ?_, ?_, ?_, rfl, rfl, rfl, rfl, rfl, rfl, rfl,
    rfl⟩ <;> decide

/-- Claim **C5**: file-metadata generation records `size = len(b)` and
`digests.sha256` equal to the hex SHA-256 of `b` when content is given,
`size = 0` and `digests.sha256 = null` when content is absent, and the
digest is deterministic and path-independent: identical bytes yield the
identical digest regardless of path (and of the clock reading). -/
theorem claim_C5 (now now1 now2 : String) (p p1 p2 : Path) (b : Bytes) :
    metaLookup (TulipFile.generate_metadata now p (some b)) "size"
      = some (.num b.length) ∧
    descriptorSha256 (TulipFile.generate_metadata now p (some b))
      = some (.str (SHA256.sha256hex b)) ∧
    metaLookup (TulipFile.generate_metadata now p none) "size"
      = some (.num 0) ∧
    descriptorSha256 (TulipFile.generate_metadata now p none) = some .null ∧
    descriptorSha256 (TulipFile.generate_metadata now1 p1 (some b))
      = descriptorSha256 (TulipFile.generate_metadata now2 p2 (some b)) :=
  ⟨rfl, rfl, rfl, rfl, rfl⟩

/-- Claim **C9**: on an entity whose stored descriptor is `m`,
`update_metadata(mixins)` reads the current descriptor, shallow-merges
the mixins over it (mixin keys win on conflict) and writes the full
merged descriptor back: afterwards the stored descriptor is exactly
`dictUpdate m mixins`, whose bindings are the mixin value for mixin keys
and the unchanged previous value for every other key. -/
theorem claim_C9 (assets : Store Descriptor) (p : Path) (m mixins : Descriptor)
    (hstored : Store.find? assets (metadata_path p) = some (.file m))
    (hparent : Store.isDirAt assets p = true) :
    ∃ assets',
      TulipEntity.update_metadata none none assets p mixins
        = (assets', .ok ()) ∧
      Store.find? assets' (metadata_path p)
        = some (.file (dictUpdate m mixins)) ∧
      ∀ k, metaLookup (dictUpdate m mixins) k =
        match metaLookup mixins k with
        | some v => some v
        | none => metaLookup m k := by
  have hdrop : (metadata_path p).dropLast = p := by
    rw [metadata_path]
    exact List.dropLast_concat
  have hcat : Store.cat_file none assets (metadata_path p) = .ok m := by
    unfold Store.cat_file
    simp only [hstored]
  have hw : Store.writeFile none assets (metadata_path p) (dictUpdate m mixins)
      = .ok (Store.insert assets (metadata_path p)
          (.file (dictUpdate m mixins))) := by
    unfold Store.writeFile
    simp only [hstored]
    rw [hdrop, if_pos hparent]
  refine ⟨Store.insert assets (metadata_path p) (.file (dictUpdate m mixins)),
    ?_, ?_, ?_⟩
  · unfold TulipEntity.update_metadata
    simp only [hcat, hw]
  · exact Store.find?_insert_self assets (metadata_path p) _
  · intro k
    exact metaLookup_dictUpdate m mixins k

/-- Witness for C9 at the concrete instance of spec P6: descriptor
`{"k": "old", "other": "x"}` updated with `{"k": "v", "new": 3}`. -/
theorem claim_C9_witness :
    ∃ assets',
      TulipEntity.update_metadata none none
        [(["a"], .dir),
         (["a", "tulip.json"],
          .file [("k", JVal.str "old"), ("other", JVal.str "x")])]
        ["a"] [("k", JVal.str "v"), ("new", JVal.num 3)]
        = (assets', .ok ()) ∧
      Store.find? assets' (metadata_path ["a"])
        = some (.file (dictUpdate
            [("k", JVal.str "old"), ("other", JVal.str "x")]
            [("k", JVal.str "v"), ("new", JVal.num 3)])) ∧
      ∀ k, metaLookup (dictUpdate
          [("k", JVal.str "old"), ("other", JVal.str "x")]
          [("k", JVal.str "v"), ("new", JVal.num 3)]) k =
        match metaLookup [("k", JVal.str "v"), ("new", JVal.num 3)] k with
        | some v => some v
        | none => metaLookup [("k", JVal.str "old"), ("other", JVal.str "x")] k :=
  claim_C9 _ ["a"] _ _ rfl rfl

/-- Claim **C2**: if the metadata step fails during single-directory creation
(`makedir`) or file write (`pipe_file`), the just-created content-store
entry is removed (whenever the compensating removal is not itself hit by
a backend fault; for `makedir` the removal is the non-recursive `rmdir`,
so the created directory must be childless) and the original error —
never a failure of the compensating removal itself — is what propagates
to the caller. -/
theorem claim_C2 (now : String) (st : FSState) (p : Path) (v : Bytes)
    (fObjMk fWrite fMk fWr : Option Err) (objs : Store Bytes)
    (a' : Store Descriptor) (e : Err) :
    (Store.makedirs fObjMk st.objects_fs p false = .ok objs →
      TulipFS.write_metadata fMk fWr st.assets_fs p
        (TulipObject.generate_metadata now p) = (a', .error e) →
      (∀ fRb, (TulipFS.makedir now fObjMk fMk fWr fRb st p).2 = .error e) ∧
      (Store.hasChild objs p = false → p ≠ [] →
        Store.pathExists
          (TulipFS.makedir now fObjMk fMk fWr none st p).1.objects_fs p
          = false)) ∧
    (Store.writeFile fWrite st.objects_fs p v = .ok objs →
      TulipFS.write_metadata fMk fWr st.assets_fs p
        (TulipFile.generate_metadata now p (some v)) = (a', .error e) →
      (∀ fRb,
        (TulipFS.pipe_file now fWrite fMk fWr fRb st p v).2 = .error e) ∧
      Store.pathExists
        (TulipFS.pipe_file now fWrite fMk fWr none st p v).1.objects_fs p
        = false) := by
  constructor
  · intro hobj hmeta
    constructor
    · intro fRb
      unfold TulipFS.makedir
      simp only [hobj, hmeta]
    · intro hchild hne
      have hdir : Store.find? objs p = some .dir :=
        Store.mkdirAll_ok_dir_mem (Store.makedirs_ok_elim hobj)
          (self_mem_prefixesOf hne)
      have hrb : Store.rmdir none objs p = .ok (Store.erase objs p) :=
        Store.rmdir_empty_dir hdir hchild
      unfold TulipFS.makedir
      simp only [hobj, hmeta, hrb]
      exact Store.pathExists_erase_self objs p
  · intro hobj hmeta
    constructor
    · intro fRb
      unfold TulipFS.pipe_file
      simp only [hobj, hmeta]
    · have hfile : Store.find? objs p = some (.file v) :=
        Store.writeFile_ok_self hobj
      have hrb : Store.rm none objs p false = .ok (Store.erase objs p) :=
        Store.rm_file_any false hfile
      unfold TulipFS.pipe_file
      simp only [hobj, hmeta, hrb]
      exact Store.pathExists_erase_self objs p

/-- Witness for C2: a backend fault on the sidecar write during `makedir
["d"]` and during `pipe_file ["a.txt"]` on the empty dual store. -/
theorem claim_C2_witness :
    ((∀ fRb, (TulipFS.makedir "t0" none none (some (.backend 3)) fRb
        ⟨[], []⟩ ["d"]).2 = .error (.backend 3)) ∧
      Store.pathExists (TulipFS.makedir "t0" none none (some (.backend 3))
        none ⟨[], []⟩ ["d"]).1.objects_fs ["d"] = false) ∧
    ((∀ fRb, (TulipFS.pipe_file "t0" none none (some (.backend 4)) fRb
        ⟨[], []⟩ ["a.txt"] [1, 2]).2 = .error (.backend 4)) ∧
      Store.pathExists (TulipFS.pipe_file "t0" none none (some (.backend 4))
        none ⟨[], []⟩ ["a.txt"] [1, 2]).1.objects_fs ["a.txt"] = false) := by
  constructor
  · have h := (claim_C2 "t0" ⟨[], []⟩ ["d"] [] none none none
      (some (.backend 3)) [(["d"], Node.dir)] [(["d"], Node.dir)]
      (.backend 3)).1 rfl rfl
    exact ⟨h.1, h.2 rfl (by decide)⟩
  · have h := (claim_C2 "t0" ⟨[], []⟩ ["a.txt"] [1, 2] none none none
      (some (.backend 4)) [(["a.txt"], Node.file [1, 2])]
      [(["a.txt"], Node.dir)] (.backend 4)).2 rfl rfl
    exact ⟨h.1, h.2⟩

/-- Claim **C3**: `rm` and `rmdir` delete the metadata sidecar subtree first and
the content entry second; a metadata-removal failure with metadata
present aborts before touching the content store and propagates; when
metadata never existed, the content removal proceeds whatever the
metadata-removal outcome was. -/
theorem claim_C3 (st : FSState) (p : Path) (fA fO : Option Err) (e : Err)
    (recursive : Bool) :
    (Store.pathExists st.assets_fs p = true →
      Store.rm fA st.assets_fs p true = .error e →
      TulipFS.rm fA fO st p recursive = (st, .error e) ∧
      TulipFS.rmdir fA fO st p = (st, .error e)) ∧
    (Store.pathExists st.assets_fs p = false →
      (TulipFS.rm fA fO st p recursive =
        match Store.rm fO st.objects_fs p recursive with
        | .ok objs => (⟨objs, st.assets_fs⟩, .ok ())
        | .error e2 => (st, .error e2)) ∧
      (TulipFS.rmdir fA fO st p =
        match Store.rmdir fO st.objects_fs p with
        | .ok objs => (⟨objs, st.assets_fs⟩, .ok ())
        | .error e2 => (st, .error e2))) ∧
    (∀ assets1 objs1,
      Store.rm fA st.assets_fs p true = .ok assets1 →
      Store.rm fO st.objects_fs p recursive = .ok objs1 →
      TulipFS.rm fA fO st p recursive = (⟨objs1, assets1⟩, .ok ())) ∧
    (∀ assets1 objs1,
      Store.rm fA st.assets_fs p true = .ok assets1 →
      Store.rmdir fO st.objects_fs p = .ok objs1 →
      TulipFS.rmdir fA fO st p = (⟨objs1, assets1⟩, .ok ())) := by
  refine ⟨?_, ?_, ?_, ?_⟩
  · intro hex herr
    constructor
    · unfold TulipFS.rm
      simp only [herr, hex]
      rfl
    · unfold TulipFS.rmdir
      simp only [herr, hex]
      rfl
  · intro hex
    obtain ⟨e1, herr⟩ := Store.rm_not_exists_error fA true hex
    constructor
    · unfold TulipFS.rm
      simp only [herr, hex]
      rcases Store.rm fO st.objects_fs p recursive with e2 | objs1 <;> rfl
    · unfold TulipFS.rmdir
      simp only [herr, hex]
      rcases Store.rmdir fO st.objects_fs p with e2 | objs1 <;> rfl
  · intro assets1 objs1 hA hO
    unfold TulipFS.rm
    simp only [hA, hO]
  · intro assets1 objs1 hA hO
    unfold TulipFS.rmdir
    simp only [hA, hO]

/-- Witness for C3: a faulted metadata removal with metadata present
aborts; with no metadata the content removal proceeds under the same
fault; with no faults both sides are removed. -/
theorem claim_C3_witness :
    (TulipFS.rm (some (.backend 5)) none
        ⟨[(["x"], Node.file [1])], [(["x"], Node.dir)]⟩ ["x"] false
      = (⟨[(["x"], Node.file [1])], [(["x"], Node.dir)]⟩,
          .error (.backend 5)) ∧
      TulipFS.rmdir (some (.backend 5)) none
        ⟨[(["x"], Node.file [1])], [(["x"], Node.dir)]⟩ ["x"]
      = (⟨[(["x"], Node.file [1])], [(["x"], Node.dir)]⟩,
          .error (.backend 5))) ∧
    (TulipFS.rm (some (.backend 5)) none ⟨[(["y"], Node.file [2])], []⟩
        ["y"] false =
      match Store.rm none [(["y"], Node.file [2])] ["y"] false with
      | .ok objs => (⟨objs, []⟩, .ok ())
      | .error e2 => (⟨[(["y"], Node.file [2])], []⟩, .error e2)) ∧
    TulipFS.rm none none
        ⟨[(["z"], Node.file [3])],
         [(["z"], Node.dir), (["z", "tulip.json"], Node.file [])]⟩ ["z"] false
      = (⟨[], []⟩, .ok ()) := by
  refine ⟨?_, ?_, ?_⟩
  · exact (claim_C3 ⟨[(["x"], Node.file [1])], [(["x"], Node.dir)]⟩ ["x"]
      (some (.backend 5)) none (.backend 5) false).1 rfl rfl
  · exact ((claim_C3 ⟨[(["y"], Node.file [2])], []⟩ ["y"]
      (some (.backend 5)) none (.backend 5) false).2.1 rfl).1
  · exact (claim_C3
      ⟨[(["z"], Node.file [3])],
       [(["z"], Node.dir), (["z", "tulip.json"], Node.file [])]⟩ ["z"]
      none none .notFound false).2.2.1 [] [] rfl rfl

/-- Claim **C10**: with metadata present at `p`, `rm` removes the sidecar
subtree recursively before attempting the content removal; when the
content-store removal then fails, the content entry survives while every
sidecar under `p` is already gone, and nothing restores the metadata
store. -/
theorem claim_C10 (st : FSState) (p : Path) (fO : Option Err) (e : Err)
    (recursive : Bool)
    (hdir : Store.find? st.assets_fs p = some .dir)
    (hfail : Store.rm fO st.objects_fs p recursive = .error e) :
    TulipFS.rm none fO st p recursive
      = (⟨st.objects_fs, Store.removeTree st.assets_fs p⟩, .error e) ∧
    (∀ q : Path, p.isPrefixOf q = true →
      Store.find? (TulipFS.rm none fO st p recursive).1.assets_fs q
        = none) ∧
    Store.find? (TulipFS.rm none fO st p recursive).1.objects_fs p
      = Store.find? st.objects_fs p := by
  have hA : Store.rm none st.assets_fs p true
      = .ok (Store.removeTree st.assets_fs p) := Store.rm_dir_recursive hdir
  have hres : TulipFS.rm none fO st p recursive
      = (⟨st.objects_fs, Store.removeTree st.assets_fs p⟩, .error e) := by
    unfold TulipFS.rm
    simp only [hA, hfail]
  refine ⟨hres, ?_, ?_⟩
  · intro q hq
    rw [hres]
    exact Store.find?_removeTree_none st.assets_fs hq
  · rw [hres]

/-- Witness for C10: non-recursive `rm` of a directory entity whose
sidecar subtree exists; the content removal fails, the sidecars are
gone, the content directory survives. -/
theorem claim_C10_witness :
    TulipFS.rm none none
        ⟨[(["d"], Node.dir), (["d", "f"], Node.file [1])],
         [(["d"], Node.dir), (["d", "tulip.json"], Node.file [])]⟩
        ["d"] false
      = (⟨[(["d"], Node.dir), (["d", "f"], Node.file [1])],
          Store.removeTree
            [(["d"], Node.dir), (["d", "tulip.json"], Node.file [])] ["d"]⟩,
          .error .isADirectory) ∧
    (∀ q : Path, (["d"] : Path).isPrefixOf q = true →
      Store.find? (TulipFS.rm none none
        ⟨[(["d"], Node.dir), (["d", "f"], Node.file [1])],
         [(["d"], Node.dir), (["d", "tulip.json"], Node.file [])]⟩
        ["d"] false).1.assets_fs q = none) ∧
    Store.find? (TulipFS.rm none none
        ⟨[(["d"], Node.dir), (["d", "f"], Node.file [1])],
         [(["d"], Node.dir), (["d", "tulip.json"], Node.file [])]⟩
        ["d"] false).1.objects_fs ["d"]
      = Store.find?
          [(["d"], Node.dir), (["d", "f"], Node.file [1])] ["d"] :=
  claim_C10
    ⟨[(["d"], Node.dir), (["d", "f"], Node.file [1])],
     [(["d"], Node.dir), (["d", "tulip.json"], Node.file [])]⟩
    ["d"] none .isADirectory false rfl rfl

/-- Claim **C8**: `move` and `copy` perform the operation in the content store
first and mirror it into the metadata store only if metadata existed at
`path1`; a content-store failure aborts without touching the metadata
store, while a metadata-mirroring failure is surfaced to the caller with
the already-applied content-store change left in place. -/
theorem claim_C8 (st : FSState) (p1 p2 : Path) (fO fA : Option Err)
    (recursive : Bool) (e : Err) (objs : Store Bytes)
    (assets1 : Store Descriptor) :
    (Store.copy fO st.objects_fs p1 p2 recursive = .error e →
      TulipFS.copy fO fA st p1 p2 recursive = (st, .error e)) ∧
    (Store.move fO st.objects_fs p1 p2 = .error e →
      TulipFS.move fO fA st p1 p2 = (st, .error e)) ∧
    (Store.copy fO st.objects_fs p1 p2 recursive = .ok objs →
      Store.pathExists st.assets_fs p1 = true →
      Store.copy fA st.assets_fs p1 p2 true = .error e →
      TulipFS.copy fO fA st p1 p2 recursive
        = (⟨objs, st.assets_fs⟩, .error e)) ∧
    (Store.move fO st.objects_fs p1 p2 = .ok objs →
      Store.pathExists st.assets_fs p1 = true →
      Store.move fA st.assets_fs p1 p2 = .error e →
      TulipFS.move fO fA st p1 p2 = (⟨objs, st.assets_fs⟩, .error e)) ∧
    (Store.copy fO st.objects_fs p1 p2 recursive = .ok objs →
      Store.pathExists st.assets_fs p1 = false →
      TulipFS.copy fO fA st p1 p2 recursive
        = (⟨objs, st.assets_fs⟩, .ok ())) ∧
    (Store.move fO st.objects_fs p1 p2 = .ok objs →
      Store.pathExists st.assets_fs p1 = false →
      TulipFS.move fO fA st p1 p2 = (⟨objs, st.assets_fs⟩, .ok ())) ∧
    (Store.copy fO st.objects_fs p1 p2 recursive = .ok objs →
      Store.pathExists st.assets_fs p1 = true →
      Store.copy fA st.assets_fs p1 p2 true = .ok assets1 →
      TulipFS.copy fO fA st p1 p2 recursive = (⟨objs, assets1⟩, .ok ())) ∧
    (Store.move fO st.objects_fs p1 p2 = .ok objs →
      Store.pathExists st.assets_fs p1 = true →
      Store.move fA st.assets_fs p1 p2 = .ok assets1 →
      TulipFS.move fO fA st p1 p2 = (⟨objs, assets1⟩, .ok ())) := by
  refine ⟨?_, ?_, ?_, ?_, ?_, ?_, ?_, ?_⟩
  · intro h
    unfold TulipFS.copy
    simp only [h]
  · intro h
    unfold TulipFS.move
    simp only [h]
  · intro hO hex hA
    unfold TulipFS.copy
    simp only [hO, hex, hA, if_true]
  · intro hO hex hA
    unfold TulipFS.move
    simp only [hO, hex, hA, if_true]
  · intro hO hex
    unfold TulipFS.copy
    simp only [hO, hex]
    rfl
  · intro hO hex
    unfold TulipFS.move
    simp only [hO, hex]
    rfl
  · intro hO hex hA
    unfold TulipFS.copy
    simp only [hO, hex, hA, if_true]
  · intro hO hex hA
    unfold TulipFS.move
    simp only [hO, hex, hA, if_true]

/-- Witness for C8: the four copy/move regimes at concrete stores — a
missing source aborts; a faulted mirror surfaces after the content
change; no metadata means content-only; no faults mirror both sides. -/
theorem claim_C8_witness :
    TulipFS.copy none none ⟨[], []⟩ ["a"] ["b"] false
      = (⟨[], []⟩, .error .notFound) ∧
    TulipFS.move none none ⟨[], []⟩ ["a"] ["b"]
      = (⟨[], []⟩, .error .notFound) ∧
    TulipFS.copy none (some (.backend 6))
        ⟨[(["a"], Node.file [1])], [(["a"], Node.dir)]⟩ ["a"] ["b"] false
      = (⟨Store.insert [(["a"], Node.file [1])] ["b"] (Node.file [1]),
          [(["a"], Node.dir)]⟩, .error (.backend 6)) ∧
    TulipFS.move none (some (.backend 6))
        ⟨[(["a"], Node.file [1])], [(["a"], Node.dir)]⟩ ["a"] ["b"]
      = (⟨Store.insert (Store.erase [(["a"], Node.file [1])] ["a"]) ["b"]
            (Node.file [1]),
          [(["a"], Node.dir)]⟩, .error (.backend 6)) ∧
    TulipFS.copy none none ⟨[(["a"], Node.file [1])], []⟩ ["a"] ["b"] false
      = (⟨Store.insert [(["a"], Node.file [1])] ["b"] (Node.file [1]), []⟩,
          .ok ()) ∧
    TulipFS.move none none ⟨[(["a"], Node.file [1])], []⟩ ["a"] ["b"]
      = (⟨Store.insert (Store.erase [(["a"], Node.file [1])] ["a"]) ["b"]
            (Node.file [1]), []⟩, .ok ()) ∧
    TulipFS.copy none none
        ⟨[(["a"], Node.file [1])], [(["a"], Node.dir)]⟩ ["a"] ["b"] false
      = (⟨Store.insert [(["a"], Node.file [1])] ["b"] (Node.file [1]),
          Store.insert [(["a"], Node.dir)] ["b"] Node.dir⟩, .ok ()) ∧
    TulipFS.move none none
        ⟨[(["a"], Node.file [1])], [(["a"], Node.dir)]⟩ ["a"] ["b"]
      = (⟨Store.insert (Store.erase [(["a"], Node.file [1])] ["a"]) ["b"]
            (Node.file [1]),
          Store.removeTree
            (Store.copyTree [(["a"], Node.dir)] ["a"] ["b"]) ["a"]⟩,
          .ok ()) := by
  refine ⟨?_, ?_, ?_, ?_, ?_, ?_, ?_, ?_⟩
  · exact (claim_C8 ⟨[], []⟩ ["a"] ["b"] none none false .notFound [] []).1
      rfl
  · exact (claim_C8 ⟨[], []⟩ ["a"] ["b"] none none false .notFound []
      []).2.1 rfl
  · exact (claim_C8 ⟨[(["a"], Node.file [1])], [(["a"], Node.dir)]⟩ ["a"]
      ["b"] none (some (.backend 6)) false (.backend 6)
      (Store.insert [(["a"], Node.file [1])] ["b"] (Node.file [1]))
      []).2.2.1 rfl rfl rfl
  · exact (claim_C8 ⟨[(["a"], Node.file [1])], [(["a"], Node.dir)]⟩ ["a"]
      ["b"] none (some (.backend 6)) false (.backend 6)
      (Store.insert (Store.erase [(["a"], Node.file [1])] ["a"]) ["b"]
        (Node.file [1])) []).2.2.2.1 rfl rfl rfl
  · exact (claim_C8 ⟨[(["a"], Node.file [1])], []⟩ ["a"] ["b"] none none
      false .notFound
      (Store.insert [(["a"], Node.file [1])] ["b"] (Node.file [1]))
      []).2.2.2.2.1 rfl rfl
  · exact (claim_C8 ⟨[(["a"], Node.file [1])], []⟩ ["a"] ["b"] none none
      false .notFound
      (Store.insert (Store.erase [(["a"], Node.file [1])] ["a"]) ["b"]
        (Node.file [1])) []).2.2.2.2.2.1 rfl rfl
  · exact (claim_C8 ⟨[(["a"], Node.file [1])], [(["a"], Node.dir)]⟩ ["a"]
      ["b"] none none false .notFound
      (Store.insert [(["a"], Node.file [1])] ["b"] (Node.file [1]))
      (Store.insert [(["a"], Node.dir)] ["b"] Node.dir)).2.2.2.2.2.2.1
      rfl rfl rfl
  · exact (claim_C8 ⟨[(["a"], Node.file [1])], [(["a"], Node.dir)]⟩ ["a"]
      ["b"] none none false .notFound
      (Store.insert (Store.erase [(["a"], Node.file [1])] ["a"]) ["b"]
        (Node.file [1]))
      (Store.removeTree (Store.copyTree [(["a"], Node.dir)] ["a"] ["b"])
        ["a"])).2.2.2.2.2.2.2 rfl rfl rfl

/-- Claim **C6**: `makedirs` creates the directories in the content store and
then generates and writes an object descriptor for every path prefix,
ancestors first, accumulated left-to-right (the `Store.prefixesOf` list);
if processing any prefix fails, the prefixes already processed carry
their sidecars, a compensating recursive remove of the outermost target
path is attempted in the content store (and succeeds when unfaulted),
and the original error is re-raised. -/
theorem claim_C6 (now : String) (fObjMk fRb : Option Err)
    (fMeta : Path → Option Err × Option Err) (st st' : FSState) (p : Path)
    (eo : Bool) (e : Err) (objs : Store Bytes) (a' : Store Descriptor) :
    (TulipFS.makedirs now fObjMk fMeta fRb st p eo = (st', .ok true) →
      ∀ q ∈ Store.prefixesOf p,
        Store.find? st'.objects_fs q = some .dir ∧
        Store.find? st'.assets_fs (metadata_path q)
          = some (.file (TulipObject.generate_metadata now q))) ∧
    (Store.makedirs fObjMk st.objects_fs p eo = .ok objs →
      TulipFS.writeMetaAll now fMeta st.assets_fs (Store.prefixesOf p)
        = (a', .error e) →
      (∀ fRb2,
        (TulipFS.makedirs now fObjMk fMeta fRb2 st p eo).2 = .error e) ∧
      (TulipFS.makedirs now fObjMk fMeta fRb st p eo).1.assets_fs = a' ∧
      Store.pathExists
        (TulipFS.makedirs now fObjMk fMeta none st p eo).1.objects_fs p
        = false ∧
      ∃ l1 q l2, Store.prefixesOf p = l1 ++ q :: l2 ∧
        ∀ r ∈ l1,
          Store.find? a' (metadata_path r)
            = some (.file (TulipObject.generate_metadata now r))) := by
  constructor
  · intro h q hq
    unfold TulipFS.makedirs at h
    rcases hobj : Store.makedirs fObjMk st.objects_fs p eo with e0 | objs0
    · simp only [hobj] at h
      cases h
    · simp only [hobj] at h
      rcases hw : TulipFS.writeMetaAll now fMeta st.assets_fs
          (Store.prefixesOf p) with ⟨a0, r0⟩
      rcases r0 with e0 | u
      · simp only [hw] at h
        cases h
      · cases u
        simp only [hw] at h
        cases h
        constructor
        · exact Store.mkdirAll_ok_dir_mem (Store.makedirs_ok_elim hobj) hq
        · exact writeMetaAll_ok_sidecars (prefixesOf_pairwise_ne p) hw q hq
  · intro hobj hfail
    obtain ⟨l1, q, l2, aMid, hsplit, hok, hfailq⟩ :=
      writeMetaAll_error_decomp hfail
    have hne : p ≠ [] := by
      intro hp
      rw [prefixesOf_nil_of_nil hp] at hsplit
      cases l1 <;> simp at hsplit
    refine ⟨?_, ?_, ?_, ?_⟩
    · intro fRb2
      unfold TulipFS.makedirs
      simp only [hobj, hfail]
    · unfold TulipFS.makedirs
      simp only [hobj, hfail]
    · have hdir : Store.find? objs p = some .dir :=
        Store.mkdirAll_ok_dir_mem (Store.makedirs_ok_elim hobj)
          (self_mem_prefixesOf hne)
      have hrm : Store.rm none objs p true
          = .ok (Store.removeTree objs p) := Store.rm_dir_recursive hdir
      unfold TulipFS.makedirs
      simp only [hobj, hfail, hrm]
      exact Store.pathExists_removeTree_self objs p
    · refine ⟨l1, q, l2, hsplit, ?_⟩
      intro r hr
      have hpw : (l1 ++ q :: l2).Pairwise (· ≠ ·) := by
        rw [← hsplit]
        exact prefixesOf_pairwise_ne p
      have hsc := writeMetaAll_ok_sidecars (List.pairwise_append.mp hpw).1
        hok r hr
      exact write_metadata_error_file hfailq hsc

/-- Witness for C6: the successful creation of `images/dogs` in an empty
repository (spec Scenario A) and a faulted sidecar write during
`makedirs ["d"]` with its compensating rollback. -/
theorem claim_C6_witness :
    (∀ q ∈ Store.prefixesOf ["images", "dogs"],
      Store.find? (TulipFS.makedirs "t0" none (fun _ => (none, none)) none
        ⟨[], []⟩ ["images", "dogs"] false).1.objects_fs q = some .dir ∧
      Store.find? (TulipFS.makedirs "t0" none (fun _ => (none, none)) none
        ⟨[], []⟩ ["images", "dogs"] false).1.assets_fs (metadata_path q)
        = some (.file (TulipObject.generate_metadata "t0" q))) ∧
    (∀ fRb2,
      (TulipFS.makedirs "t0" none (fun _ => (none, some (.backend 8))) fRb2
        ⟨[], []⟩ ["d"] false).2 = .error (.backend 8)) ∧
    Store.pathExists
      (TulipFS.makedirs "t0" none (fun _ => (none, some (.backend 8))) none
        ⟨[], []⟩ ["d"] false).1.objects_fs ["d"] = false := by
  refine ⟨?_, ?_, ?_⟩
  · exact (claim_C6 "t0" none none (fun _ => (none, none)) ⟨[], []⟩
      (TulipFS.makedirs "t0" none (fun _ => (none, none)) none
        ⟨[], []⟩ ["images", "dogs"] false).1
      ["images", "dogs"] false .notFound [] []).1 rfl
  · exact ((claim_C6 "t0" none none (fun _ => (none, some (.backend 8)))
      ⟨[], []⟩ ⟨[], []⟩ ["d"] false (.backend 8) [(["d"], Node.dir)]
      [(["d"], Node.dir)]).2 rfl rfl).1
  · exact ((claim_C6 "t0" none none (fun _ => (none, some (.backend 8)))
      ⟨[], []⟩ ⟨[], []⟩ ["d"] false (.backend 8) [(["d"], Node.dir)]
      [(["d"], Node.dir)]).2 rfl rfl).2.2.1

/-- Counterexample to **C1** as stated: on the empty dual store, closing a
never-closed mutating (`"wb"`) handle bound to `a.txt` — a path whose
entry does not exist in the content store — returns successfully, yet no
sidecar descriptor exists at `a.txt/tulip.json` in the metadata store
afterwards. -/
theorem claim_C1_counterexample :
    isMutatingMode "wb" = true ∧
    (TulipFileHandle.close "t0" none none none none ⟨[], []⟩
      ⟨["a.txt"], "wb", false⟩).2.2 = .ok () ∧
    Store.find? (TulipFileHandle.close "t0" none none none none ⟨[], []⟩
      ⟨["a.txt"], "wb", false⟩).2.1.assets_fs (metadata_path ["a.txt"])
      = none :=
  ⟨rfl, rfl, rfl⟩

/-- Claim **C1 (amended)**: for every path at which `makedir`, `makedirs` or
`pipe_file` returns successfully, and for every not-yet-closed mutating
handle whose path exists in the content store at close time and whose
`close` returns successfully, a sidecar descriptor exists at
`<path>/tulip.json` in the metadata store and decodes to a mapping whose
`type` field matches the entity kind (`"object"` for directories,
`"file"` for files).  The amendment restricts the handle-close case to
entries that still exist in the content store: when the entry has
vanished, `close` returns successfully without writing any sidecar. -/
theorem claim_C1_amended (now : String) :
    (∀ fa fb fc fd st st' p,
      TulipFS.makedir now fa fb fc fd st p = (st', .ok true) →
      sidecarTyped st'.assets_fs p "object") ∧
    (∀ fObjMk fMeta fRb st st' p eo,
      TulipFS.makedirs now fObjMk fMeta fRb st p eo = (st', .ok true) →
      ∀ q ∈ Store.prefixesOf p, sidecarTyped st'.assets_fs q "object") ∧
    (∀ fWrite fMk fWr fRb st st' p v,
      TulipFS.pipe_file now fWrite fMk fWr fRb st p v = (st', .ok true) →
      sidecarTyped st'.assets_fs p "file") ∧
    (∀ fCat fMk fWr fRm st h h2 st',
      h.closed = false → isMutatingMode h.mode = true →
      Store.pathExists st.objects_fs h.path = true →
      TulipFileHandle.close now fCat fMk fWr fRm st h = (h2, st', .ok ()) →
      sidecarTyped st'.assets_fs h.path "file") := by
  refine ⟨?_, ?_, ?_, ?_⟩
  · intro fa fb fc fd st st' p hcl
    unfold TulipFS.makedir at hcl
    rcases hobj : Store.makedirs fa st.objects_fs p false with e0 | objs
    · simp only [hobj] at hcl
      cases hcl
    · simp only [hobj] at hcl
      rcases hw : TulipFS.write_metadata fb fc st.assets_fs p
          (TulipObject.generate_metadata now p) with ⟨a0, r0⟩
      rcases r0 with e0 | b
      · simp only [hw] at hcl
        cases hcl
      · simp only [hw] at hcl
        cases hcl
        exact ⟨TulipObject.generate_metadata now p,
          write_metadata_ok_sidecar hw, rfl⟩
  · intro fObjMk fMeta fRb st st' p eo hcl q hq
    unfold TulipFS.makedirs at hcl
    rcases hobj : Store.makedirs fObjMk st.objects_fs p eo with e0 | objs
    · simp only [hobj] at hcl
      cases hcl
    · simp only [hobj] at hcl
      rcases hw : TulipFS.writeMetaAll now fMeta st.assets_fs
          (Store.prefixesOf p) with ⟨a0, r0⟩
      rcases r0 with e0 | u
      · simp only [hw] at hcl
        cases hcl
      · cases u
        simp only [hw] at hcl
        cases hcl
        exact ⟨TulipObject.generate_metadata now q,
          writeMetaAll_ok_sidecars (prefixesOf_pairwise_ne p) hw q hq, rfl⟩
  · intro fWrite fMk fWr fRb st st' p v hcl
    unfold TulipFS.pipe_file at hcl
    rcases hobj : Store.writeFile fWrite st.objects_fs p v with e0 | objs
    · simp only [hobj] at hcl
      cases hcl
    · simp only [hobj] at hcl
      rcases hw : TulipFS.write_metadata fMk fWr st.assets_fs p
          (TulipFile.generate_metadata now p (some v)) with ⟨a0, r0⟩
      rcases r0 with e0 | b
      · simp only [hw] at hcl
        cases hcl
      · simp only [hw] at hcl
        cases hcl
        exact ⟨TulipFile.generate_metadata now p (some v),
          write_metadata_ok_sidecar hw, rfl⟩
  · intro fCat fMk fWr fRm st h h2 st' hclosed hmut hex hcl
    unfold TulipFileHandle.close at hcl
    rw [if_neg (by rw [hclosed]; exact Bool.false_ne_true)] at hcl
    rw [if_pos hmut] at hcl
    rcases hg : TulipFileHandle.generateMetadata now fCat fMk fWr fRm st
        h.path with ⟨st2, r2⟩
    simp only [hg] at hcl
    rcases r2 with e2 | u
    · cases hcl
    · cases u
      cases hcl
      unfold TulipFileHandle.generateMetadata at hg
      rw [if_pos hex] at hg
      rcases hcat : Store.cat_file fCat st.objects_fs h.path with e3 | contents
      · simp only [hcat] at hg
        cases hg
      · simp only [hcat] at hg
        rcases hwm : TulipFS.write_metadata fMk fWr st.assets_fs h.path
            (TulipFile.generate_metadata now h.path (some contents))
            with ⟨a0, r0⟩
        rcases r0 with e0 | b
        · simp only [hwm] at hg
          cases hg
        · simp only [hwm] at hg
          cases hg
          exact ⟨TulipFile.generate_metadata now h.path (some contents),
            write_metadata_ok_sidecar hwm, rfl⟩

/-- Witness for the amended C1: the four create/close paths at concrete
inputs on small stores, each leaving a correctly typed sidecar. -/
theorem claim_C1_witness :
    sidecarTyped (TulipFS.makedir "t0" none none none none ⟨[], []⟩
      ["d"]).1.assets_fs ["d"] "object" ∧
    (∀ q ∈ Store.prefixesOf ["images", "dogs"],
      sidecarTyped (TulipFS.makedirs "t0" none (fun _ => (none, none)) none
        ⟨[], []⟩ ["images", "dogs"] false).1.assets_fs q "object") ∧
    sidecarTyped (TulipFS.pipe_file "t0" none none none none ⟨[], []⟩
      ["a.txt"] [104, 105]).1.assets_fs ["a.txt"] "file" ∧
    sidecarTyped (TulipFileHandle.close "t0" none none none none
      ⟨[(["a.txt"], Node.file [104, 105])], []⟩
      ⟨["a.txt"], "wb", false⟩).2.1.assets_fs ["a.txt"] "file" := by
  refine ⟨?_, ?_, ?_, ?_⟩
  · exact (claim_C1_amended "t0").1 none none none none ⟨[], []⟩
      (TulipFS.makedir "t0" none none none none ⟨[], []⟩ ["d"]).1 ["d"] rfl
  · exact (claim_C1_amended "t0").2.1 none (fun _ => (none, none)) none
      ⟨[], []⟩
      (TulipFS.makedirs "t0" none (fun _ => (none, none)) none ⟨[], []⟩
        ["images", "dogs"] false).1
      ["images", "dogs"] false rfl
  · exact (claim_C1_amended "t0").2.2.1 none none none none ⟨[], []⟩
      (TulipFS.pipe_file "t0" none none none none ⟨[], []⟩ ["a.txt"]
        [104, 105]).1
      ["a.txt"] [104, 105] rfl
  · exact (claim_C1_amended "t0").2.2.2 none none none none
      ⟨[(["a.txt"], Node.file [104, 105])], []⟩
      ⟨["a.txt"], "wb", false⟩
      (TulipFileHandle.close "t0" none none none none
        ⟨[(["a.txt"], Node.file [104, 105])], []⟩
        ⟨["a.txt"], "wb", false⟩).1
      (TulipFileHandle.close "t0" none none none none
        ⟨[(["a.txt"], Node.file [104, 105])], []⟩
        ⟨["a.txt"], "wb", false⟩).2.1
      rfl rfl rfl rfl

/-- Counterexample to **C7** as stated: on the empty dual store, closing a
never-closed mutating (`"wb"`) handle bound to `gone.txt` — an entry that
does not exist in the content store post-close — neither removes anything
nor re-raises any failure: `close` returns successfully and leaves both
stores untouched, where the claim asserts a removal and a re-raised
failure for this case. -/
theorem claim_C7_counterexample :
    isMutatingMode "wb" = true ∧
    Store.pathExists ([] : Store Bytes) ["gone.txt"] = false ∧
    (TulipFileHandle.close "t0" none none none none ⟨[], []⟩
      ⟨["gone.txt"], "wb", false⟩).2.2 = .ok () ∧
    (TulipFileHandle.close "t0" none none none none ⟨[], []⟩
      ⟨["gone.txt"], "wb", false⟩).2.1 = (⟨[], []⟩ : FSState) :=
  ⟨rfl, rfl, rfl, rfl⟩

/-- Claim **C7 (amended)**: closing a not-yet-closed handle opened in a
content-mutating mode closes the underlying stream and marks the handle
closed; then, if the entry exists in the content store post-close, its
full content is read back, metadata is regenerated from it and the
sidecar written; if the read-back or the metadata write fails, the entry
is removed from the content store (when it is a file and the removal is
unfaulted) and the failure is re-raised.  The amendment: when the entry
does not exist post-close, nothing is removed and no failure is raised —
`close` returns successfully with both stores untouched. -/
theorem claim_C7_amended (now : String) (fCat fMk fWr fRm : Option Err)
    (st : FSState) (h : TulipFileHandle) (contents : Bytes)
    (a' : Store Descriptor) (e : Err) :
    (h.closed = false → isMutatingMode h.mode = true →
      Store.pathExists st.objects_fs h.path = true →
      Store.cat_file fCat st.objects_fs h.path = .ok contents →
      TulipFS.write_metadata fMk fWr st.assets_fs h.path
        (TulipFile.generate_metadata now h.path (some contents))
        = (a', .ok true) →
      TulipFileHandle.close now fCat fMk fWr fRm st h
        = (⟨h.path, h.mode, true⟩, ⟨st.objects_fs, a'⟩, .ok ())) ∧
    (h.closed = false → isMutatingMode h.mode = true →
      Store.pathExists st.objects_fs h.path = true →
      Store.cat_file fCat st.objects_fs h.path = .error e →
      (∀ fRm2,
        (TulipFileHandle.close now fCat fMk fWr fRm2 st h).2.2
          = .error e) ∧
      (∀ v, Store.find? st.objects_fs h.path = some (.file v) →
        Store.pathExists (TulipFileHandle.close now fCat fMk fWr none st
          h).2.1.objects_fs h.path = false)) ∧
    (h.closed = false → isMutatingMode h.mode = true →
      Store.pathExists st.objects_fs h.path = true →
      Store.cat_file fCat st.objects_fs h.path = .ok contents →
      TulipFS.write_metadata fMk fWr st.assets_fs h.path
        (TulipFile.generate_metadata now h.path (some contents))
        = (a', .error e) →
      (∀ fRm2,
        (TulipFileHandle.close now fCat fMk fWr fRm2 st h).2.2
          = .error e) ∧
      (∀ v, Store.find? st.objects_fs h.path = some (.file v) →
        Store.pathExists (TulipFileHandle.close now fCat fMk fWr none st
          h).2.1.objects_fs h.path = false)) ∧
    (h.closed = false → isMutatingMode h.mode = true →
      Store.pathExists st.objects_fs h.path = false →
      TulipFileHandle.close now fCat fMk fWr fRm st h
        = (⟨h.path, h.mode, true⟩, st, .ok ())) := by
  refine ⟨?_, ?_, ?_, ?_⟩
  · intro hclosed hmut hex hcat hwm
    unfold TulipFileHandle.close
    rw [if_neg (by rw [hclosed]; exact Bool.false_ne_true), if_pos hmut]
    unfold TulipFileHandle.generateMetadata
    rw [if_pos hex]
    simp only [hcat, hwm]
  · intro hclosed hmut hex hcat
    constructor
    · intro fRm2
      unfold TulipFileHandle.close
      rw [if_neg (by rw [hclosed]; exact Bool.false_ne_true), if_pos hmut]
      unfold TulipFileHandle.generateMetadata
      rw [if_pos hex]
      simp only [hcat]
    · intro v hv
      have hrm : Store.rm none st.objects_fs h.path false
          = .ok (Store.erase st.objects_fs h.path) := Store.rm_file_any false hv
      unfold TulipFileHandle.close
      rw [if_neg (by rw [hclosed]; exact Bool.false_ne_true), if_pos hmut]
      unfold TulipFileHandle.generateMetadata
      rw [if_pos hex]
      simp only [hcat, hrm]
      exact Store.pathExists_erase_self st.objects_fs h.path
  · intro hclosed hmut hex hcat hwm
    constructor
    · intro fRm2
      unfold TulipFileHandle.close
      rw [if_neg (by rw [hclosed]; exact Bool.false_ne_true), if_pos hmut]
      unfold TulipFileHandle.generateMetadata
      rw [if_pos hex]
      simp only [hcat, hwm]
    · intro v hv
      have hrm : Store.rm none st.objects_fs h.path false
          = .ok (Store.erase st.objects_fs h.path) := Store.rm_file_any false hv
      unfold TulipFileHandle.close
      rw [if_neg (by rw [hclosed]; exact Bool.false_ne_true), if_pos hmut]
      unfold TulipFileHandle.generateMetadata
      rw [if_pos hex]
      simp only [hcat, hwm, hrm]
      exact Store.pathExists_erase_self st.objects_fs h.path
  · intro hclosed hmut hex
    unfold TulipFileHandle.close
    rw [if_neg (by rw [hclosed]; exact Bool.false_ne_true), if_pos hmut]
    unfold TulipFileHandle.generateMetadata
    rw [if_neg (by rw [hex]; exact Bool.false_ne_true)]

/-- Witness for the amended C7: a clean close writing the sidecar, a
faulted read-back and a faulted sidecar write both removing the entry and
re-raising, and a vanished-entry close that leaves everything alone. -/
theorem claim_C7_witness :
    TulipFileHandle.close "t0" none none none none
        ⟨[(["a.txt"], Node.file [104, 105])], []⟩ ⟨["a.txt"], "wb", false⟩
      = (⟨["a.txt"], "wb", true⟩,
         ⟨[(["a.txt"], Node.file [104, 105])],
          (TulipFS.write_metadata none none [] ["a.txt"]
            (TulipFile.generate_metadata "t0" ["a.txt"]
              (some [104, 105]))).1⟩, .ok ()) ∧
    ((∀ fRm2,
      (TulipFileHandle.close "t0" (some (.backend 9)) none none fRm2
        ⟨[(["a.txt"], Node.file [104, 105])], []⟩
        ⟨["a.txt"], "wb", false⟩).2.2 = .error (.backend 9)) ∧
      Store.pathExists (TulipFileHandle.close "t0" (some (.backend 9)) none
        none none ⟨[(["a.txt"], Node.file [104, 105])], []⟩
        ⟨["a.txt"], "wb", false⟩).2.1.objects_fs ["a.txt"] = false) ∧
    ((∀ fRm2,
      (TulipFileHandle.close "t0" none none (some (.backend 10)) fRm2
        ⟨[(["a.txt"], Node.file [104, 105])], []⟩
        ⟨["a.txt"], "wb", false⟩).2.2 = .error (.backend 10)) ∧
      Store.pathExists (TulipFileHandle.close "t0" none none
        (some (.backend 10)) none ⟨[(["a.txt"], Node.file [104, 105])], []⟩
        ⟨["a.txt"], "wb", false⟩).2.1.objects_fs ["a.txt"] = false) ∧
    TulipFileHandle.close "t0" none none none none ⟨[], []⟩
        ⟨["gone.txt"], "wb", false⟩
      = (⟨["gone.txt"], "wb", true⟩, ⟨[], []⟩, .ok ()) := by
  refine ⟨?_, ⟨?_, ?_⟩, ⟨?_, ?_⟩, ?_⟩
  · exact (claim_C7_amended "t0" none none none none
      ⟨[(["a.txt"], Node.file [104, 105])], []⟩ ⟨["a.txt"], "wb", false⟩
      [104, 105]
      (TulipFS.write_metadata none none [] ["a.txt"]
        (TulipFile.generate_metadata "t0" ["a.txt"] (some [104, 105]))).1
      .notFound).1 rfl rfl rfl rfl rfl
  · exact ((claim_C7_amended "t0" (some (.backend 9)) none none none
      ⟨[(["a.txt"], Node.file [104, 105])], []⟩ ⟨["a.txt"], "wb", false⟩
      [] [] (.backend 9)).2.1 rfl rfl rfl rfl).1
  · exact ((claim_C7_amended "t0" (some (.backend 9)) none none none
      ⟨[(["a.txt"], Node.file [104, 105])], []⟩ ⟨["a.txt"], "wb", false⟩
      [] [] (.backend 9)).2.1 rfl rfl rfl rfl).2 [104, 105] rfl
  · exact ((claim_C7_amended "t0" none none (some (.backend 10)) none
      ⟨[(["a.txt"], Node.file [104, 105])], []⟩ ⟨["a.txt"], "wb", false⟩
      [104, 105] [(["a.txt"], Node.dir)] (.backend 10)).2.2.1
      rfl rfl rfl rfl rfl).1
  · exact ((claim_C7_amended "t0" none none (some (.backend 10)) none
      ⟨[(["a.txt"], Node.file [104, 105])], []⟩ ⟨["a.txt"], "wb", false⟩
      [104, 105] [(["a.txt"], Node.dir)] (.backend 10)).2.2.1
      rfl rfl rfl rfl rfl).2 [104, 105] rfl
  · exact (claim_C7_amended "t0" none none none none ⟨[], []⟩
      ⟨["gone.txt"], "wb", false⟩ [] [] .notFound).2.2.2 rfl rfl rfl

end Tulip


